import Mathlib

/-!
Shallow embedding of the vessel-dashboard data-processing module
(`data_processing.py`) and verification of the frozen claims about it.

A pandas `DataFrame` is modelled as an ordered association list of named
columns.  Each column carries an inferred kind (the pandas dtype class:
numeric `float64`/`int64`, textual/`object`, or `datetime64`) and a list of
cells; a cell is `none` for a missing value (`NaN`/`NaT`) and `some v`
otherwise.  Rows are implicit: row `i` consists of the `i`-th cell of every
column.  Operations that pandas performs row-wise are expressed through
boolean masks applied to every column, mirroring `df[mask]`.
-/

set_option autoImplicit false

namespace VesselDash

/-- Kind of a column: the pandas dtype class that drives null-filling and
numeric selection (`float64`/`int64` are `knum`, `datetime64` is
`ktemporal`, everything else — in particular `object` — is `ktext`). -/
inductive Kind where
  | knum
  | ktext
  | ktemporal
deriving DecidableEq

/-- Scalar value stored in a cell: a number, a string, or a point in time
(seconds, an abstract rendering of a pandas `Timestamp`). -/
inductive Val where
  | vnum (q : ℚ)
  | vstr (s : String)
  | vtime (t : ℤ)
deriving DecidableEq

/-- Cell of a column: `none` models a missing value (`NaN`/`NaT`). -/
abbrev Cell := Option Val

/-- Column: a kind together with the list of cells. -/
structure Col where
  kind : Kind
  cells : List Cell
deriving DecidableEq

/-- DataFrame: ordered association list of named columns. -/
abbrev DF := List (String × Col)

/-- Names of the columns of a data frame, in order. -/
def colNames (df : DF) : List String := df.map Prod.fst

/-- Look up a column by name (first match, like pandas label lookup). -/
def lookupCol : DF → String → Option Col
  | [], _ => none
  | p :: ps, n => if p.1 = n then some p.2 else lookupCol ps n

/-- Number of rows of a data frame (length of its first column; `0` for a
frame without columns). -/
def nrows : DF → ℕ
  | [] => 0
  | p :: _ => p.2.cells.length

/-- Whether a cell is admissible for a column kind: numeric columns hold
numbers or nulls, temporal columns hold time points or nulls, `object`
columns hold anything. -/
def cellOk : Kind → Cell → Bool
  | _, none => true
  | Kind.knum, some (Val.vnum _) => true
  | Kind.knum, some _ => false
  | Kind.ktemporal, some (Val.vtime _) => true
  | Kind.ktemporal, some _ => false
  | Kind.ktext, some _ => true

/-- Well-formedness of a data frame: distinct column names, all columns of
equal length, and every cell admissible for its column's kind. -/
def WF (df : DF) : Prop :=
  (colNames df).Nodup ∧
  (∀ p ∈ df, p.2.cells.length = nrows df) ∧
  (∀ p ∈ df, ∀ x ∈ p.2.cells, cellOk p.2.kind x = true)

instance (df : DF) : Decidable (WF df) := by
  unfold WF; infer_instance

/-- Empty string constant (the textual null-fill value). -/
def emptyStr : String := ""

/-! ## Cleaner (`clean_data`) -/

/-- Null-fill for a single cell, keyed on the column kind: `NaN` becomes `0`
in a numeric column and `''` elsewhere; present values are untouched
(`Series.fillna`). -/
def fillCell (k : Kind) (x : Cell) : Cell :=
  match x with
  | none => if k = Kind.knum then some (Val.vnum 0) else some (Val.vstr emptyStr)
  | some v => some v

/-- Null-fill for a whole column.  A non-numeric column that actually held a
null is upcast to `object` by the fill (pandas upcasts `datetime64` when a
string is filled in); otherwise the kind is unchanged. -/
def fillCol (c : Col) : Col :=
  if c.kind = Kind.knum then
    Col.mk Kind.knum (c.cells.map (fillCell Kind.knum))
  else
    Col.mk (if (none : Cell) ∈ c.cells then Kind.ktext else c.kind)
      (c.cells.map (fillCell c.kind))

/-- Column survives `dropna(axis=1, how='all')`: it has at least one
non-null cell (a zero-row column has none, and is dropped). -/
def keepCol (c : Col) : Bool := c.cells.any (fun x => x.isSome)

/-- Embedding of `clean_data`: drop the columns whose values are all null,
then null-fill every remaining column according to its kind. -/
def clean_data (df : DF) : DF :=
  (df.filter (fun p => keepCol p.2)).map (fun p => (p.1, fillCol p.2))

/-! ### Basic lemmas about lookup and the Cleaner -/

theorem colNames_cons (p : String × Col) (ps : DF) :
    colNames (p :: ps) = p.1 :: colNames ps := rfl

theorem lookupCol_eq_none {df : DF} {n : String} (h : n ∉ colNames df) :
    lookupCol df n = none := by
  induction df with
  | nil => rfl
  | cons p ps ih =>
    rw [colNames_cons, List.mem_cons, not_or] at h
    rw [lookupCol, if_neg (fun he => h.1 he.symm)]
    exact ih h.2

theorem lookupCol_mem {df : DF} {n : String} {c : Col}
    (h : lookupCol df n = some c) : (n, c) ∈ df := by
  induction df with
  | nil => simp [lookupCol] at h
  | cons p ps ih =>
    rw [lookupCol] at h
    by_cases hp : p.1 = n
    · rw [if_pos hp] at h
      have h2 : p.2 = c := Option.some.inj h
      have hpe : (n, c) = p := by
        rw [← hp, ← h2]
      rw [hpe]
      exact List.mem_cons_self p ps
    · rw [if_neg hp] at h
      exact List.mem_cons_of_mem _ (ih h)

theorem mem_of_mem_colNames {df : DF} {n : String} (h : n ∈ colNames df) :
    ∃ c, (n, c) ∈ df := by
  simp only [colNames, List.mem_map] at h
  obtain ⟨p, hp, he⟩ := h
  exact ⟨p.2, by simpa [← he] using hp⟩

theorem eq_of_nodup_keys {df : DF} (h : (colNames df).Nodup) {p q : String × Col}
    (hp : p ∈ df) (hq : q ∈ df) (hn : p.1 = q.1) : p = q := by
  induction df with
  | nil => cases hp
  | cons r rs ih =>
    rw [colNames_cons, List.nodup_cons] at h
    rcases List.mem_cons.mp hp with hp1 | hp2 <;>
      rcases List.mem_cons.mp hq with hq1 | hq2
    · rw [hp1, hq1]
    · exfalso
      have hq1' : q.1 ∈ colNames rs := List.mem_map_of_mem Prod.fst hq2
      rw [← hn, hp1] at hq1'
      exact h.1 hq1'
    · exfalso
      have hp1' : p.1 ∈ colNames rs := List.mem_map_of_mem Prod.fst hp2
      rw [hn, hq1] at hp1'
      exact h.1 hp1'
    · exact ih h.2 hp2 hq2

theorem cells_fillCol (c : Col) : (fillCol c).cells = c.cells.map (fillCell c.kind) := by
  by_cases h : c.kind = Kind.knum <;> simp [fillCol, h]

theorem fillCell_isSome (k : Kind) (x : Cell) : (fillCell k x).isSome = true := by
  cases x with
  | none => by_cases h : k = Kind.knum <;> simp [fillCell, h]
  | some v => rfl

theorem keepCol_iff (c : Col) : keepCol c = true ↔ ¬ (∀ x ∈ c.cells, x = none) := by
  rw [keepCol, List.any_eq_true]
  constructor
  · rintro ⟨x, hx, hs⟩ hall
    rw [hall x hx] at hs
    simp at hs
  · intro h
    by_contra hno
    apply h
    intro x hx
    cases x with
    | none => rfl
    | some v => exact absurd ⟨some v, hx, rfl⟩ hno

theorem colNames_clean_subset (df : DF) :
    colNames (clean_data df) ⊆ colNames df := by
  intro n hn
  simp only [clean_data, colNames, List.map_map, List.mem_map] at hn ⊢
  obtain ⟨p, hp, he⟩ := hn
  exact ⟨p, (List.mem_filter.mp hp).1, he⟩

theorem clean_data_cons (r : String × Col) (rs : DF) :
    clean_data (r :: rs) =
      if keepCol r.2 then (r.1, fillCol r.2) :: clean_data rs else clean_data rs := by
  by_cases hk : keepCol r.2 <;> simp [clean_data, List.filter_cons, hk]

theorem lookupCol_clean (df : DF) (hnd : (colNames df).Nodup)
    (p : String × Col) (hp : p ∈ df) :
    lookupCol (clean_data df) p.1 =
      if keepCol p.2 then some (fillCol p.2) else none := by
  induction df with
  | nil => cases hp
  | cons r rs ih =>
    rw [colNames_cons, List.nodup_cons] at hnd
    rcases List.mem_cons.mp hp with rfl | hp2
    · rw [clean_data_cons]
      by_cases hk : keepCol p.2
      · rw [if_pos hk, if_pos hk, lookupCol, if_pos rfl]
      · rw [if_neg hk, if_neg hk]
        exact lookupCol_eq_none (fun hin => hnd.1 (colNames_clean_subset rs hin))
    · have hne : r.1 ≠ p.1 := by
        intro he
        exact hnd.1 (he ▸ List.mem_map_of_mem Prod.fst hp2)
      rw [clean_data_cons]
      by_cases hk : keepCol r.2
      · rw [if_pos hk, lookupCol, if_neg hne]
        exact ih hnd.2 hp2
      · rw [if_neg hk]
        exact ih hnd.2 hp2

/-- C6 (claim): after cleaning, all-null columns are gone, no null survives,
nulls in numeric columns became `0`, nulls elsewhere became `''`, and
non-null entries are unchanged. -/
theorem C6_clean_spec (df : DF) (hnd : (colNames df).Nodup) :
    (∀ p ∈ df, (∀ x ∈ p.2.cells, x = none) → lookupCol (clean_data df) p.1 = none) ∧
    (∀ q ∈ clean_data df, ∀ x ∈ q.2.cells, x.isSome = true) ∧
    (∀ p ∈ df, ¬ (∀ x ∈ p.2.cells, x = none) →
        lookupCol (clean_data df) p.1 = some (fillCol p.2)) ∧
    (∀ (c : Col) (i : ℕ), i < c.cells.length →
        (fillCol c).cells.getD i none =
          (match c.cells.getD i none with
            | none => if c.kind = Kind.knum then some (Val.vnum 0)
                      else some (Val.vstr emptyStr)
            | some v => some v)) := by
  refine ⟨?_, ?_, ?_, ?_⟩
  · intro p hp hall
    rw [lookupCol_clean df hnd p hp,
      if_neg (fun hk => (keepCol_iff p.2).mp hk hall)]
  · intro q hq x hx
    simp only [clean_data, List.mem_map] at hq
    obtain ⟨p, _, he⟩ := hq
    have : q.2.cells = p.2.cells.map (fillCell p.2.kind) := by
      rw [← he]; exact cells_fillCol p.2
    rw [this] at hx
    rcases List.mem_map.mp hx with ⟨y, _, hy⟩
    rw [← hy]; exact fillCell_isSome _ _
  · intro p hp hnall
    rw [lookupCol_clean df hnd p hp, if_pos ((keepCol_iff p.2).mpr hnall)]
  · intro c i hi
    rw [cells_fillCol]
    have hilen : i < (c.cells.map (fillCell c.kind)).length := by
      simpa using hi
    rw [List.getD_eq_getElem _ _ hilen, List.getD_eq_getElem _ _ hi,
      List.getElem_map]
    cases c.cells[i] with
    | none => simp [fillCell]
    | some v => rfl

/-- Sample frame for the C6 witness: a surviving mixed column and an
all-null column. -/
def dfW6 : DF :=
  [(String.mk [Char.ofNat 65], Col.mk Kind.knum [some (Val.vnum 1), none]),
   (String.mk [Char.ofNat 66], Col.mk Kind.ktext [none, none])]

/-- Witness for C6 at a concrete frame: the all-null column `B` is absent
after cleaning. -/
theorem C6_clean_spec_witness :
    lookupCol (clean_data dfW6) (String.mk [Char.ofNat 66]) = none :=
  (C6_clean_spec dfW6 (by decide)).1
    (String.mk [Char.ofNat 66], Col.mk Kind.ktext [none, none])
    (by decide) (by decide)

theorem fillCol_fillCol (c : Col) : fillCol (fillCol c) = fillCol c := by
  have hsome : ∀ x ∈ (fillCol c).cells, x.isSome = true := by
    intro x hx
    rw [cells_fillCol] at hx
    rcases List.mem_map.mp hx with ⟨y, _, hy⟩
    rw [← hy]; exact fillCell_isSome _ _
  have hnone : (none : Cell) ∉ (fillCol c).cells := by
    intro hcon
    have := hsome none hcon
    simp at this
  have hmap : ∀ (k : Kind), (fillCol c).cells.map (fillCell k) = (fillCol c).cells := by
    intro k
    have : (fillCol c).cells.map (fillCell k) = (fillCol c).cells.map id := by
      apply List.map_congr_left
      intro x hx
      cases x with
      | none => exact absurd hx hnone
      | some v => rfl
    rw [this, List.map_id]
  by_cases hk : (fillCol c).kind = Kind.knum
  · have : fillCol (fillCol c) = Col.mk Kind.knum ((fillCol c).cells.map (fillCell Kind.knum)) := by
      rw [fillCol, if_pos hk]
    rw [this, hmap, ← hk]
  · have : fillCol (fillCol c) =
        Col.mk (if (none : Cell) ∈ (fillCol c).cells then Kind.ktext else (fillCol c).kind)
          ((fillCol c).cells.map (fillCell (fillCol c).kind)) := by
      rw [fillCol, if_neg hk]
    rw [this, hmap, if_neg hnone]

/-- C7 (claim): cleaning is idempotent — re-cleaning a cleaned frame is a
no-op. -/
theorem C7_clean_idempotent (df : DF) : clean_data (clean_data df) = clean_data df := by
  unfold clean_data
  rw [List.filter_map]
  have hfil : ((df.filter (fun p => keepCol p.2)).filter
      ((fun p => keepCol p.2) ∘ (fun p => (p.1, fillCol p.2)))) =
      df.filter (fun p => keepCol p.2) := by
    apply List.filter_eq_self.mpr
    intro p hp
    have hk : keepCol p.2 = true := (List.mem_filter.mp hp).2
    have hne : p.2.cells ≠ [] := by
      intro he
      rw [keepCol, he] at hk
      simp at hk
    simp only [Function.comp_apply, keepCol, List.any_eq_true]
    rcases List.exists_mem_of_ne_nil p.2.cells hne with ⟨x, hx⟩
    have : fillCell p.2.kind x ∈ (fillCol p.2).cells := by
      rw [cells_fillCol]
      exact List.mem_map_of_mem _ hx
    exact ⟨_, this, fillCell_isSome _ _⟩
  rw [hfil, List.map_map]
  apply List.map_congr_left
  intro p _
  simp [Function.comp_apply, fillCol_fillCol]

/-! ## Column categorization (`get_column_categories`) -/

/-- Substring test, case-sensitive, modelling Python's `needle in hay`. -/
def substrB (needle hay : String) : Bool :=
  (List.range (hay.toList.length + 1)).any
    (fun i => needle.toList.isPrefixOf (hay.toList.drop i))

/-- Name of the fixed `metadata` bucket. -/
def catMetadata : String := "metadata"

/-- Name of the `vibration` bucket. -/
def catVibration : String := "vibration"

/-- Name of the `bearing` bucket. -/
def catBearing : String := "bearing"

/-- Name of the `shaft` bucket. -/
def catShaft : String := "shaft"

/-- Name of the `other` bucket. -/
def catOther : String := "other"

/-- The fixed closed list used for the `metadata` bucket (independent of the
frame's actual columns). -/
def metadataCols : List String :=
  ["MP_NUMBER", "MP_NAME", "COMP_NUMBER", "COMP_NAME", "VESSEL_NAME",
   "DATE", "TIME", "TIMESTAMP"]

/-- Vibration-pattern test: name contains `Vib`, `Vel`, `Acc` or `Disp`. -/
def isVibCol (c : String) : Bool :=
  substrB ("Vib") c || substrB ("Vel") c || substrB ("Acc") c || substrB ("Disp") c

/-- Bearing-pattern test: name contains `Bearing` or `Cuscinetto`. -/
def isBearingCol (c : String) : Bool :=
  substrB ("Bearing") c || substrB ("Cuscinetto") c

/-- Shaft-pattern test: name contains `Shaft`. -/
def isShaftCol (c : String) : Bool := substrB ("Shaft") c

/-- The `vibration` bucket: columns of the frame matching the vibration
patterns. -/
def vibBucket (df : DF) : List String := (colNames df).filter (fun c => isVibCol c)

/-- The `bearing` bucket. -/
def beaBucket (df : DF) : List String := (colNames df).filter (fun c => isBearingCol c)

/-- The `shaft` bucket. -/
def shaBucket (df : DF) : List String := (colNames df).filter (fun c => isShaftCol c)

/-- `sum(categories.values(), [])` at the point where `other` is computed:
the concatenation of the four already-filled buckets (`other` is still
empty there). -/
def allCategorized (df : DF) : List String :=
  metadataCols ++ vibBucket df ++ beaBucket df ++ shaBucket df

/-- The `other` bucket: columns of the frame appearing in no earlier
bucket. -/
def otherBucket (df : DF) : List String :=
  (colNames df).filter (fun c => decide (c ∉ allCategorized df))

/-- Embedding of `get_column_categories`: the five named buckets, in the
dictionary's insertion order. -/
def get_column_categories (df : DF) : List (String × List String) :=
  [(catMetadata, metadataCols), (catVibration, vibBucket df),
   (catBearing, beaBucket df), (catShaft, shaBucket df),
   (catOther, otherBucket df)]

/-- Sample frame whose single column matches both the vibration and the
shaft patterns. -/
def dfX2 : DF := [("Shaft Vib", Col.mk Kind.knum [some (Val.vnum 1)])]

/-- C2 (counterexample): the column `Shaft Vib` is placed in two buckets
(`vibration` and `shaft`), so categorization is not a partition and is not
first-match-wins. -/
theorem C2_categories_counterexample :
    (("Shaft Vib" : String) ∈ ((get_column_categories dfX2).getD 1 (catOther, [])).2) ∧
    (("Shaft Vib" : String) ∈ ((get_column_categories dfX2).getD 3 (catOther, [])).2) ∧
    ((get_column_categories dfX2).getD 1 (catOther, [])).1 = catVibration ∧
    ((get_column_categories dfX2).getD 3 (catOther, [])).1 = catShaft := by
  decide

/-- C2 (amended): every column of the frame lands in at least one bucket
(it may land in several); matching is substring-based and case-sensitive;
and the `other` bucket holds exactly the frame's columns matching none of
the metadata/vibration/bearing/shaft patterns. -/
theorem C2_categories_amended (df : DF) :
    (∀ c ∈ colNames df, ∃ b ∈ get_column_categories df, c ∈ b.2) ∧
    (∀ c, c ∈ ((get_column_categories df).getD 4 (catOther, [])).2 ↔
      (c ∈ colNames df ∧ c ∉ metadataCols ∧ isVibCol c = false ∧
        isBearingCol c = false ∧ isShaftCol c = false)) := by
  have hother : ((get_column_categories df).getD 4 (catOther, [])).2 = otherBucket df := rfl
  constructor
  · intro c hc
    by_cases hm : c ∈ metadataCols
    · exact ⟨(catMetadata, metadataCols), by simp [get_column_categories], hm⟩
    · by_cases hv : isVibCol c
      · exact ⟨(catVibration, vibBucket df), by simp [get_column_categories],
          List.mem_filter.mpr ⟨hc, hv⟩⟩
      · by_cases hb : isBearingCol c
        · exact ⟨(catBearing, beaBucket df), by simp [get_column_categories],
            List.mem_filter.mpr ⟨hc, hb⟩⟩
        · by_cases hs : isShaftCol c
          · exact ⟨(catShaft, shaBucket df), by simp [get_column_categories],
              List.mem_filter.mpr ⟨hc, hs⟩⟩
          · refine ⟨(catOther, otherBucket df), by simp [get_column_categories], ?_⟩
            apply List.mem_filter.mpr
            refine ⟨hc, decide_eq_true ?_⟩
            intro hall
            rcases List.mem_append.mp hall with hall3 | hsh
            · rcases List.mem_append.mp hall3 with hall2 | hbe
              · rcases List.mem_append.mp hall2 with hmd | hvi
                · exact hm hmd
                · exact hv (List.mem_filter.mp hvi).2
              · exact hb (List.mem_filter.mp hbe).2
            · exact hs (List.mem_filter.mp hsh).2
  · intro c
    rw [hother]
    constructor
    · intro hin
      have h1 := List.mem_filter.mp hin
      have h2 : c ∉ allCategorized df := of_decide_eq_true h1.2
      refine ⟨h1.1, ?_, ?_, ?_, ?_⟩
      · intro hmd
        exact h2 (List.mem_append.mpr (Or.inl (List.mem_append.mpr
          (Or.inl (List.mem_append.mpr (Or.inl hmd))))))
      · by_contra hv
        rw [Bool.not_eq_false] at hv
        exact h2 (List.mem_append.mpr (Or.inl (List.mem_append.mpr
          (Or.inl (List.mem_append.mpr (Or.inr (List.mem_filter.mpr ⟨h1.1, hv⟩)))))))
      · by_contra hb
        rw [Bool.not_eq_false] at hb
        exact h2 (List.mem_append.mpr (Or.inl (List.mem_append.mpr
          (Or.inr (List.mem_filter.mpr ⟨h1.1, hb⟩)))))
      · by_contra hs
        rw [Bool.not_eq_false] at hs
        exact h2 (List.mem_append.mpr (Or.inr (List.mem_filter.mpr ⟨h1.1, hs⟩)))
    · rintro ⟨hc, hm, hv, hb, hs⟩
      apply List.mem_filter.mpr
      refine ⟨hc, decide_eq_true ?_⟩
      intro hall
      rcases List.mem_append.mp hall with hall3 | hsh
      · rcases List.mem_append.mp hall3 with hall2 | hbe
        · rcases List.mem_append.mp hall2 with hmd | hvi
          · exact hm hmd
          · have hvt := (List.mem_filter.mp hvi).2
            rw [hv] at hvt
            simp at hvt
        · have hbt := (List.mem_filter.mp hbe).2
          rw [hb] at hbt
          simp at hbt
      · have hst := (List.mem_filter.mp hsh).2
        rw [hs] at hst
        simp at hst

/-- Sample frame for the C2 witness: one column matching no pattern. -/
def dfX2w : DF := [("FOO", Col.mk Kind.ktext [some (Val.vstr emptyStr)])]

/-- Witness for C2 at a concrete frame: an unmatched column lands in the
`other` bucket. -/
theorem C2_categories_amended_witness :
    ("FOO" : String) ∈ ((get_column_categories dfX2w).getD 4 (catOther, [])).2 :=
  ((C2_categories_amended dfX2w).2 ("FOO")).mpr (by decide)

/-! ## Merger (`merge_dataframes`) -/

/-- Combination of the dtypes of same-named columns across concatenated
sources: equal kinds are kept, mixed kinds fall back to `object`. -/
def combineKind (a b : Kind) : Kind := if a = b then a else Kind.ktext

/-- One step of the column-union accumulation: append the names of `d` not
seen yet (`pd.concat` keeps first-appearance order with `sort=False`). -/
def unionStep (acc : List String) (d : DF) : List String :=
  acc ++ (colNames d).filter (fun m => decide (m ∉ acc))

/-- Column names of the concatenation: union of all source columns in
first-appearance order. -/
def unionNames (dfs : List DF) : List String := dfs.foldl unionStep []

/-- Contribution of one source to a merged column: its own cells when it has
the column, a block of nulls (`NaN`) otherwise. -/
def mergeBlock (n : String) (d : DF) : List Cell :=
  match lookupCol d n with
  | some c => c.cells
  | none => List.replicate (nrows d) none

/-- Merged column for name `n`: concatenation of the per-source blocks, with
the combined kind. -/
def mergedCol (dfs : List DF) (n : String) : Col :=
  Col.mk
    (match dfs.filterMap (fun d => (lookupCol d n).map Col.kind) with
      | [] => Kind.ktext
      | k :: ks => ks.foldl combineKind k)
    (dfs.flatMap (mergeBlock n))

/-- Embedding of `merge_dataframes`: `pd.concat(dfs, ignore_index=True)`
guarded by the empty-input check. -/
def merge_dataframes (dfs : List DF) : DF :=
  if dfs.isEmpty then [] else (unionNames dfs).map (fun n => (n, mergedCol dfs n))

theorem mem_foldl_unionStep (dfs : List DF) :
    ∀ (acc : List String) (n : String),
      (n ∈ dfs.foldl unionStep acc) ↔ (n ∈ acc ∨ ∃ d ∈ dfs, n ∈ colNames d) := by
  induction dfs with
  | nil => intro acc n; simp
  | cons d ds ih =>
    intro acc n
    rw [List.foldl_cons, ih]
    constructor
    · rintro (hin | hex)
      · rw [unionStep, List.mem_append] at hin
        rcases hin with h1 | h2
        · exact Or.inl h1
        · exact Or.inr ⟨d, List.mem_cons_self d ds, (List.mem_filter.mp h2).1⟩
      · obtain ⟨d', hd', hn⟩ := hex
        exact Or.inr ⟨d', List.mem_cons_of_mem d hd', hn⟩
    · rintro (hacc | ⟨d', hd', hn⟩)
      · exact Or.inl (by rw [unionStep]; exact List.mem_append.mpr (Or.inl hacc))
      · rcases List.mem_cons.mp hd' with rfl | hds
        · by_cases ha : n ∈ acc
          · exact Or.inl (by rw [unionStep]; exact List.mem_append.mpr (Or.inl ha))
          · refine Or.inl ?_
            rw [unionStep]
            exact List.mem_append.mpr
              (Or.inr (List.mem_filter.mpr ⟨hn, decide_eq_true ha⟩))
        · exact Or.inr ⟨d', hds, hn⟩

theorem mem_unionNames {dfs : List DF} {n : String} :
    n ∈ unionNames dfs ↔ ∃ d ∈ dfs, n ∈ colNames d := by
  rw [unionNames, mem_foldl_unionStep]
  simp

theorem colNames_map_keys (ns : List String) (f : String → Col) :
    colNames (ns.map (fun n => (n, f n))) = ns := by
  induction ns with
  | nil => rfl
  | cons n ns ih => simp only [List.map_cons, colNames_cons, ih]

theorem lookup_map_keys (ns : List String) (f : String → Col) (m : String) :
    lookupCol (ns.map (fun n => (n, f n))) m = if m ∈ ns then some (f m) else none := by
  induction ns with
  | nil => rfl
  | cons n ns ih =>
    rw [List.map_cons, lookupCol]
    by_cases he : n = m
    · rw [if_pos he, if_pos (he ▸ List.mem_cons_self n ns), he]
    · rw [if_neg he, ih]
      by_cases hm : m ∈ ns
      · rw [if_pos hm, if_pos (List.mem_cons_of_mem n hm)]
      · rw [if_neg hm, if_neg (fun hc => by
          rcases List.mem_cons.mp hc with h1 | h2
          · exact he h1.symm
          · exact hm h2)]

theorem mergeBlock_length {dfs : List DF} (hwf : ∀ d ∈ dfs, WF d)
    {d : DF} (hd : d ∈ dfs) (n : String) : (mergeBlock n d).length = nrows d := by
  rw [mergeBlock]
  cases hl : lookupCol d n with
  | none => exact List.length_replicate _ _
  | some c => exact ((hwf d hd).2.1 (n, c) (lookupCol_mem hl))

theorem mergedCol_length {dfs : List DF} (hwf : ∀ d ∈ dfs, WF d) (n : String) :
    (mergedCol dfs n).cells.length = (dfs.map nrows).sum := by
  show (dfs.flatMap (mergeBlock n)).length = _
  rw [List.length_flatMap]
  congr 1
  apply List.map_congr_left
  intro d hd
  exact mergeBlock_length hwf hd n

theorem flatMap_block_slice {dfs : List DF} (hwf : ∀ d ∈ dfs, WF d) (n : String) :
    ∀ (k : ℕ) (hk : k < dfs.length),
      (((dfs.flatMap (mergeBlock n)).drop (((dfs.take k).map nrows).sum)).take
          (nrows (dfs.get ⟨k, hk⟩))) = mergeBlock n (dfs.get ⟨k, hk⟩) := by
  induction dfs with
  | nil => intro k hk; cases hk
  | cons d ds ih =>
    intro k hk
    cases k with
    | zero =>
      show (((mergeBlock n d ++ ds.flatMap (mergeBlock n)).drop 0).take (nrows d)) = mergeBlock n d
      rw [List.drop_zero]
      exact List.take_left'
        (mergeBlock_length hwf (List.mem_cons_self d ds) n)
    | succ k =>
      have hk' : k < ds.length := Nat.lt_of_succ_lt_succ hk
      have hwf' : ∀ d' ∈ ds, WF d' := fun d' hd' => hwf d' (List.mem_cons_of_mem d hd')
      show ((((mergeBlock n d ++ ds.flatMap (mergeBlock n)).drop
          (((d :: ds.take k).map nrows).sum)).take (nrows (ds.get ⟨k, hk'⟩))))
        = mergeBlock n (ds.get ⟨k, hk'⟩)
      rw [List.map_cons, List.sum_cons, ← List.drop_drop,
        List.drop_left' (mergeBlock_length hwf (List.mem_cons_self d ds) n)]
      exact ih hwf' k hk'

/-- C5 (amended): merging already-cleaned frames yields a frame whose row
count is the sum of input row counts, whose columns are exactly the union of
input columns, and in which each merged column is laid out source-block by
source-block in input order — a source's block being its own cells when it
has the column and a block of nulls (not Cleaner-filled values) when it does
not; merging the empty sequence yields the empty frame. -/
theorem C5_merge_amended (dfs : List DF) (hwf : ∀ d ∈ dfs, WF d)
    (hclean : ∀ d ∈ dfs, clean_data d = d) :
    nrows (merge_dataframes dfs) = (dfs.map nrows).sum ∧
    (∀ n, n ∈ colNames (merge_dataframes dfs) ↔ ∃ d ∈ dfs, n ∈ colNames d) ∧
    (∀ n c, lookupCol (merge_dataframes dfs) n = some c →
      c.cells.length = (dfs.map nrows).sum ∧
      ∀ (k : ℕ) (hk : k < dfs.length),
        ((c.cells.drop (((dfs.take k).map nrows).sum)).take (nrows (dfs.get ⟨k, hk⟩)))
          = mergeBlock n (dfs.get ⟨k, hk⟩)) ∧
    merge_dataframes ([] : List DF) = [] := by
  refine ⟨?_, ?_, ?_, rfl⟩
  · cases dfs with
    | nil => rfl
    | cons d ds =>
      rw [merge_dataframes]
      rw [if_neg (by simp)]
      cases hU : unionNames (d :: ds) with
      | nil =>
        show (0 : ℕ) = _
        symm
        apply List.sum_eq_zero
        intro x hx
        rcases List.mem_map.mp hx with ⟨d', hd', rfl⟩
        cases hd'' : d' with
        | nil => rfl
        | cons p ps =>
          exfalso
          have : p.1 ∈ unionNames (d :: ds) :=
            mem_unionNames.mpr ⟨d', hd', by rw [hd'']; exact List.mem_cons_self _ _⟩
          rw [hU] at this
          cases this
      | cons n0 rest =>
        show (mergedCol (d :: ds) n0).cells.length = _
        exact mergedCol_length hwf n0
  · intro n
    cases dfs with
    | nil => simp [merge_dataframes, colNames]
    | cons d ds =>
      rw [merge_dataframes, if_neg (by simp), colNames_map_keys]
      exact mem_unionNames
  · intro n c hc
    cases dfs with
    | nil => cases hc
    | cons d ds =>
      rw [merge_dataframes, if_neg (by simp), lookup_map_keys] at hc
      by_cases hm : n ∈ unionNames (d :: ds)
      · rw [if_pos hm] at hc
        cases hc
        exact ⟨mergedCol_length hwf n, flatMap_block_slice hwf n⟩
      · rw [if_neg hm] at hc
        cases hc

/-- First sample frame for the C5 counterexample and witness. -/
def dfM1 : DF := [("A", Col.mk Kind.knum [some (Val.vnum 1)])]

/-- Second sample frame for the C5 counterexample and witness. -/
def dfM2 : DF := [("B", Col.mk Kind.knum [some (Val.vnum 2)])]

/-- C5 (counterexample): merging two already-cleaned one-column frames
leaves a null (`NaN`) in the merged numeric column `B` for the row coming
from the source that lacks `B` — not the Cleaner's fill value `0` the claim
requires. -/
theorem C5_merge_counterexample :
    clean_data dfM1 = dfM1 ∧ clean_data dfM2 = dfM2 ∧
    lookupCol (merge_dataframes [dfM1, dfM2]) ("B") =
      some (Col.mk Kind.knum [none, some (Val.vnum 2)]) ∧
    (none : Cell) ≠ some (Val.vnum 0) := by
  refine ⟨by decide, by decide, ?_, by decide⟩
  decide

/-- Witness for C5 at a concrete pair of frames: the merged row count is the
sum of the input row counts. -/
theorem C5_merge_amended_witness :
    nrows (merge_dataframes [dfM1, dfM2]) = ([dfM1, dfM2].map nrows).sum :=
  (C5_merge_amended [dfM1, dfM2] (by decide) (by decide)).1

/-! ## Timestamp synthesizer (`create_timestamp`)

Calendar rendering and datetime parsing are modelled abstractly but
executably: a calendar day renders as the decimal day index
(`strftime('%Y-%m-%d')`), a `Timestamp` value renders with a `t` tag
(`str(...)`), and `pd.to_datetime(..., errors='coerce')` succeeds exactly on
strings of the shape `<day> <t-tagged time-of-day>`, yielding `none`
otherwise.  Which strings parse is irrelevant to the claims; what matters is
that failures coerce to null instead of raising. -/

/-- Name of the `DATE` column. -/
def sDATE : String := "DATE"

/-- Name of the `TIME` column. -/
def sTIME : String := "TIME"

/-- Name of the derived `TIMESTAMP` column. -/
def sTIMESTAMP : String := "TIMESTAMP"

/-- Rendering of a missing value under `astype(str)` (`str(nan)`). -/
def nanStr : String := "nan"

/-- Single-space separator between the date and time parts. -/
def spaceStr : String := " "

/-- Tag of the abstract rendering of a temporal value. -/
def timeMark : String := "t"

/-- Fraction-bar for the rendering of non-integral rationals. -/
def fracBar : String := "/"

/-- Decimal rendering of a rational (`str()` of a number). -/
def numToStr (q : ℚ) : String :=
  toString q.num ++ (if q.den = 1 then emptyStr else fracBar ++ toString q.den)

/-- Text coercion of one cell (`astype(str)` element-wise). -/
def valToStr : Cell → String
  | none => nanStr
  | some (Val.vnum q) => numToStr q
  | some (Val.vstr s) => s
  | some (Val.vtime t) => timeMark ++ toString t

/-- Calendar day of a time point (floor to day, 86400 seconds per day). -/
def tsDay (t : ℤ) : ℤ := Int.fdiv t 86400

/-- Abstract `strftime('%Y-%m-%d')`: decimal rendering of the day index. -/
def fmtDay (d : ℤ) : String := toString d

/-- Parse of the time-of-day part of a combined string: succeeds exactly on
`t<n>` with `0 ≤ n < 86400`. -/
def parseTimePart (s : String) : Option ℤ :=
  if timeMark.isPrefixOf s then
    match (s.drop 1).toInt? with
    | some t => if 0 ≤ t ∧ t < 86400 then some t else none
    | none => none
  else none

/-- Abstract `pd.to_datetime(..., errors='coerce')` on a combined
`<date> <time>` string: `none` models coercion of a parse failure to
`NaT`. -/
def parseDT (s : String) : Option ℤ :=
  match s.splitOn spaceStr with
  | [ds, ts] =>
    match ds.toInt?, parseTimePart ts with
    | some d, some t => some (d * 86400 + t)
    | _, _ => none
  | _ => none

/-- Timestamp cell for one row: format the `DATE` value as a calendar-day
string, concatenate with the coerced `TIME` text separated by one space,
parse; a null or non-temporal `DATE` cell propagates to a null timestamp. -/
def mkTsCell (dc : Cell) (tstr : String) : Cell :=
  match dc with
  | some (Val.vtime d) => (parseDT (fmtDay (tsDay d) ++ spaceStr ++ tstr)).map Val.vtime
  | _ => none

/-- In-place `df['TIME'] = df['TIME'].astype(str)`: every cell becomes its
text rendering (note: nulls become the string `nan`, a non-null value). -/
def strTimeCol (c : Col) : Col :=
  Col.mk Kind.ktext (c.cells.map (fun x => some (Val.vstr (valToStr x))))

/-- Column assignment `df[n] = c`: replace in place when the label exists,
append at the end otherwise. -/
def setCol (df : DF) (n : String) (c : Col) : DF :=
  if n ∈ colNames df then df.map (fun p => if p.1 = n then (n, c) else p)
  else df ++ [(n, c)]

/-- Guard of the `.dt` accessor: when both `DATE` and `TIME` exist, `DATE`
must be of temporal dtype, else `create_timestamp` raises. -/
def dtGuardOk (df : DF) : Bool :=
  match lookupCol df sDATE, lookupCol df sTIME with
  | some dc, some _ => decide (dc.kind = Kind.ktemporal)
  | _, _ => true

/-- Embedding of `create_timestamp`: when both `DATE` and `TIME` exist,
coerce `TIME` to text in place and assign the parsed `TIMESTAMP` column;
`none` models the `AttributeError` of `.dt` on a non-temporal `DATE`.
Absent `DATE` or `TIME` returns the frame unchanged. -/
def create_timestamp (df : DF) : Option DF :=
  match lookupCol df sDATE, lookupCol df sTIME with
  | some dcol, some tcol =>
    if dcol.kind = Kind.ktemporal then
      some (setCol (setCol df sTIME (strTimeCol tcol)) sTIMESTAMP
        (Col.mk Kind.ktemporal
          (List.zipWith (fun dc tc => mkTsCell dc (valToStr tc)) dcol.cells tcol.cells)))
    else none
  | _, _ => some df

theorem lookup_map_update (df : DF) (n : String) (c : Col) :
    lookupCol (df.map (fun p => if p.1 = n then (n, c) else p)) n =
      if n ∈ colNames df then some c else none := by
  induction df with
  | nil => rw [List.map_nil, lookupCol, if_neg (by simp [colNames])]
  | cons p ps ih =>
    rw [List.map_cons]
    by_cases hp : p.1 = n
    · rw [if_pos hp, lookupCol, if_pos rfl,
        if_pos (by rw [colNames_cons]; exact hp ▸ List.mem_cons_self _ _)]
    · rw [if_neg hp, lookupCol, if_neg hp, ih, colNames_cons]
      by_cases hm : n ∈ colNames ps
      · rw [if_pos hm, if_pos (List.mem_cons_of_mem _ hm)]
      · rw [if_neg hm, if_neg (fun hc => by
          rcases List.mem_cons.mp hc with h1 | h2
          · exact hp h1.symm
          · exact hm h2)]

theorem lookup_append_single (df : DF) (n : String) (c : Col)
    (h : n ∉ colNames df) : lookupCol (df ++ [(n, c)]) n = some c := by
  induction df with
  | nil => rw [List.nil_append, lookupCol, if_pos rfl]
  | cons p ps ih =>
    rw [colNames_cons, List.mem_cons, not_or] at h
    rw [List.cons_append, lookupCol, if_neg (fun he => h.1 he.symm)]
    exact ih h.2

theorem lookup_setCol_self (df : DF) (n : String) (c : Col) :
    lookupCol (setCol df n c) n = some c := by
  rw [setCol]
  by_cases hm : n ∈ colNames df
  · rw [if_pos hm, lookup_map_update, if_pos hm]
  · rw [if_neg hm]
    exact lookup_append_single df n c hm

theorem lookup_map_update_other (df : DF) (n m : String) (c : Col) (hne : m ≠ n) :
    lookupCol (df.map (fun p => if p.1 = n then (n, c) else p)) m = lookupCol df m := by
  induction df with
  | nil => rfl
  | cons p ps ih =>
    by_cases hp : p.1 = n
    · simp only [List.map_cons, if_pos hp, lookupCol]
      rw [if_neg (show ¬ n = m from fun he => hne he.symm),
        if_neg (show ¬ p.1 = m from fun he => hne (he ▸ hp)), ih]
    · simp only [List.map_cons, if_neg hp, lookupCol]
      by_cases hq : p.1 = m
      · rw [if_pos hq, if_pos hq]
      · rw [if_neg hq, if_neg hq, ih]

theorem lookup_append_other (df : DF) (n m : String) (c : Col) (hne : m ≠ n) :
    lookupCol (df ++ [(n, c)]) m = lookupCol df m := by
  induction df with
  | nil =>
    rw [List.nil_append]
    show (if (n, c).1 = m then some (n, c).2 else lookupCol [] m) = none
    rw [if_neg (show ¬ (n, c).1 = m from fun he => hne he.symm)]
    rfl
  | cons p ps ih =>
    simp only [List.cons_append, lookupCol]
    by_cases hq : p.1 = m
    · rw [if_pos hq, if_pos hq]
    · rw [if_neg hq, if_neg hq]
      exact ih

theorem lookup_setCol_other (df : DF) (n m : String) (c : Col) (hne : m ≠ n) :
    lookupCol (setCol df n c) m = lookupCol df m := by
  rw [setCol]
  by_cases hmem : n ∈ colNames df
  · rw [if_pos hmem]
    exact lookup_map_update_other df n m c hne
  · rw [if_neg hmem]
    exact lookup_append_other df n m c hne

theorem colNames_setCol (df : DF) (n : String) (c : Col) :
    colNames (setCol df n c) =
      if n ∈ colNames df then colNames df else colNames df ++ [n] := by
  rw [setCol]
  by_cases hm : n ∈ colNames df
  · rw [if_pos hm, if_pos hm]
    show List.map _ _ = _
    rw [List.map_map]
    apply List.map_congr_left
    intro p _
    by_cases hp : p.1 = n
    · simp [Function.comp_apply, hp]
    · simp [Function.comp_apply, hp]
  · rw [if_neg hm, if_neg hm]
    show List.map _ _ = _
    rw [List.map_append]
    rfl

/-- Sample frame for the C3 counterexample: `DATE` and `TIME` both present,
but `DATE` is textual, so `.dt.strftime` raises. -/
def dfT3c : DF :=
  [(sDATE, Col.mk Kind.ktext [some (Val.vstr ("2024-01-01"))]),
   (sTIME, Col.mk Kind.ktext [some (Val.vstr ("08:00"))])]

/-- C3 (counterexample): with `DATE` present but not of temporal dtype,
timestamp synthesis raises (modelled `none`) instead of degrading, refuting
`never raises` over all inputs. -/
theorem C3_create_timestamp_counterexample : create_timestamp dfT3c = none := by
  decide

/-- C3 (amended): provided `DATE` is of temporal dtype whenever both `DATE`
and `TIME` are present, timestamp synthesis never raises; with both columns
present it adds a temporal `TIMESTAMP` column of length equal to the row
count whose `i`-th cell is the parse of the formatted date concatenated with
the coerced time text (null when the combination fails to parse or the date
is null), and with either column absent it returns the frame unchanged. -/
theorem C3_create_timestamp_amended (df : DF) (hwf : WF df)
    (hg : dtGuardOk df = true) :
    ∃ df', create_timestamp df = some df' ∧
      ((lookupCol df sDATE = none ∨ lookupCol df sTIME = none) → df' = df) ∧
      (∀ dc tc, lookupCol df sDATE = some dc → lookupCol df sTIME = some tc →
        ∃ tsc, lookupCol df' sTIMESTAMP = some tsc ∧ tsc.kind = Kind.ktemporal ∧
          tsc.cells.length = nrows df ∧
          (∀ i : ℕ, tsc.cells.getD i none =
            mkTsCell (dc.cells.getD i none) (valToStr (tc.cells.getD i none)))) := by
  cases hd : lookupCol df sDATE with
  | none =>
    cases ht : lookupCol df sTIME with
    | none =>
      refine ⟨df, by simp only [create_timestamp, hd, ht], fun _ => rfl, ?_⟩
      intro dc tc hdc _
      exact Option.noConfusion hdc
    | some tcol =>
      refine ⟨df, by simp only [create_timestamp, hd, ht], fun _ => rfl, ?_⟩
      intro dc tc hdc _
      exact Option.noConfusion hdc
  | some dcol =>
    cases ht : lookupCol df sTIME with
    | none =>
      refine ⟨df, by simp only [create_timestamp, hd, ht], fun _ => rfl, ?_⟩
      intro dc tc _ htc
      exact Option.noConfusion htc
    | some tcol =>
      have hk : dcol.kind = Kind.ktemporal := by
        rw [dtGuardOk, hd, ht] at hg
        exact of_decide_eq_true hg
      have hdl : dcol.cells.length = nrows df :=
        hwf.2.1 (sDATE, dcol) (lookupCol_mem hd)
      have htl : tcol.cells.length = nrows df :=
        hwf.2.1 (sTIME, tcol) (lookupCol_mem ht)
      refine ⟨_, by simp only [create_timestamp, hd, ht]; rw [if_pos hk], ?_, ?_⟩
      · rintro (h | h) <;> exact Option.noConfusion h
      · intro dc tc hdc htc
        cases Option.some.inj hdc
        cases Option.some.inj htc
        refine ⟨_, lookup_setCol_self _ _ _, rfl, ?_, ?_⟩
        · show (List.zipWith _ dcol.cells tcol.cells).length = nrows df
          rw [List.length_zipWith, hdl, htl, Nat.min_self]
        · intro i
          show (List.zipWith _ dcol.cells tcol.cells).getD i none = _
          rw [List.getD_eq_getElem?_getD, List.getD_eq_getElem?_getD,
            List.getD_eq_getElem?_getD, List.getElem?_zipWith]
          by_cases hi : i < nrows df
          · rw [List.getElem?_eq_getElem (show i < dcol.cells.length by rw [hdl]; exact hi),
              List.getElem?_eq_getElem (show i < tcol.cells.length by rw [htl]; exact hi)]
            rfl
          · rw [List.getElem?_eq_none (show dcol.cells.length ≤ i by rw [hdl]; omega),
              List.getElem?_eq_none (show tcol.cells.length ≤ i by rw [htl]; omega)]
            rfl

/-- Sample frame for the C3 witness: temporal `DATE`, temporal `TIME`, one
row that parses and one null date. -/
def dfT3 : DF :=
  [(sDATE, Col.mk Kind.ktemporal [some (Val.vtime 86400), none]),
   (sTIME, Col.mk Kind.ktemporal [some (Val.vtime 3600), some (Val.vtime 60)])]

/-- Witness for C3 at a concrete frame: synthesis succeeds (does not
raise). -/
theorem C3_create_timestamp_amended_witness :
    (create_timestamp dfT3).isSome = true := by
  obtain ⟨df', h, -, -⟩ := C3_create_timestamp_amended dfT3 (by decide) (by decide)
  rw [h]
  rfl

/-- Sample frame for the C4 counterexample and witness: a numeric `TIME`
column that the synthesizer coerces to text in place. -/
def dfT4 : DF :=
  [(sDATE, Col.mk Kind.ktemporal [some (Val.vtime 0)]),
   (sTIME, Col.mk Kind.knum [some (Val.vnum 8)])]

/-- C4 (counterexample): timestamp synthesis does not leave every
pre-existing column unchanged — the `TIME` column is replaced by its text
coercion (`astype(str)` in place). -/
theorem C4_create_timestamp_counterexample :
    (create_timestamp dfT4).map (fun d => lookupCol d sTIME) ≠
      some (lookupCol dfT4 sTIME) := by
  decide

/-- C4 (amended): on a run with both columns present and a temporal `DATE`,
every pre-existing column other than `TIME` and `TIMESTAMP` is unchanged;
`TIME` is replaced by its element-wise text coercion, and `TIMESTAMP` is
appended (or overwritten if it pre-existed). -/
theorem C4_create_timestamp_amended (df : DF) (dc tc : Col)
    (hd : lookupCol df sDATE = some dc) (ht : lookupCol df sTIME = some tc)
    (hk : dc.kind = Kind.ktemporal) :
    ∃ df', create_timestamp df = some df' ∧
      (∀ n, n ≠ sTIME → n ≠ sTIMESTAMP → lookupCol df' n = lookupCol df n) ∧
      lookupCol df' sTIME = some (strTimeCol tc) ∧
      colNames df' = (if sTIMESTAMP ∈ colNames df then colNames df
        else colNames df ++ [sTIMESTAMP]) := by
  have htm : sTIME ∈ colNames df := List.mem_map_of_mem Prod.fst (lookupCol_mem ht)
  refine ⟨_, by simp only [create_timestamp, hd, ht]; rw [if_pos hk], ?_, ?_, ?_⟩
  · intro n hn1 hn2
    rw [lookup_setCol_other _ _ _ _ hn2, lookup_setCol_other _ _ _ _ hn1]
  · rw [lookup_setCol_other _ _ _ _ (show sTIME ≠ sTIMESTAMP by decide),
      lookup_setCol_self]
  · rw [colNames_setCol]
    rw [colNames_setCol, if_pos htm]

/-- Witness for C4 at a concrete frame: the `DATE` column is unchanged by
the synthesis run. -/
theorem C4_create_timestamp_amended_witness :
    (create_timestamp dfT4).map (fun d => lookupCol d sDATE) =
      some (lookupCol dfT4 sDATE) := by
  obtain ⟨df', h1, h2, -, -⟩ :=
    C4_create_timestamp_amended dfT4 (Col.mk Kind.ktemporal [some (Val.vtime 0)])
      (Col.mk Kind.knum [some (Val.vnum 8)]) (by decide) (by decide) rfl
  rw [h1]
  exact congrArg some (h2 sDATE (by decide) (by decide))

/-! ## Filtering (`filter_data`)

Pandas filters a frame with a boolean row mask (`df[mask]`); sequential
filter steps are sequential mask applications over every column. -/

/-- Value of one filter entry: a scalar (equality constraint) or a list
(membership constraint). -/
inductive FVal where
  | scalar (v : Val)
  | listv (vs : List Val)
deriving DecidableEq

/-- Python truthiness of a filter value (`if ... and values`): zero, the
empty string and the empty list are falsy. -/
def truthy : FVal → Bool
  | FVal.scalar (Val.vnum q) => decide (q ≠ 0)
  | FVal.scalar (Val.vstr s) => decide (s ≠ emptyStr)
  | FVal.scalar (Val.vtime _) => true
  | FVal.listv vs => decide (vs ≠ [])

/-- Row-level constraint: `==` against a scalar, `isin` against a list; a
null cell matches nothing. -/
def cellMatch (x : Cell) : FVal → Bool
  | FVal.scalar v => decide (x = some v)
  | FVal.listv vs =>
    match x with
    | some w => decide (w ∈ vs)
    | none => false

/-- Boolean conjunction as a named function (for rewriting). -/
def andB (a b : Bool) : Bool := a && b

/-- Application of a boolean row mask to a list (`series[mask]`). -/
def applyMask {α : Type _} : List Bool → List α → List α
  | true :: m, x :: xs => x :: applyMask m xs
  | false :: m, _ :: xs => applyMask m xs
  | _, _ => []

/-- Application of a row mask to a whole frame (`df[mask]`). -/
def maskDF (m : List Bool) (df : DF) : DF :=
  df.map (fun p => (p.1, Col.mk p.2.kind (applyMask m p.2.cells)))

/-- One iteration of the filter loop: skip the entry when its column is
absent or its value is falsy, else keep the rows whose cell matches. -/
def applyOne (df : DF) (e : String × FVal) : DF :=
  match lookupCol df e.1 with
  | none => df
  | some c =>
    if truthy e.2 then maskDF (c.cells.map (fun x => cellMatch x e.2)) df else df

/-- Embedding of `filter_data`: fold the filter entries over the frame. -/
def filter_data (df : DF) (filters : List (String × FVal)) : DF :=
  filters.foldl applyOne df

/-- Mask contributed by one filter entry on `df` (all-true when the entry is
inactive). -/
def entryMask (df : DF) (e : String × FVal) : List Bool :=
  match lookupCol df e.1 with
  | some c =>
    if truthy e.2 then c.cells.map (fun x => cellMatch x e.2)
    else List.replicate (nrows df) true
  | none => List.replicate (nrows df) true

/-- Whether row `i` passes one filter entry (inactive entries pass). -/
def entryPass (df : DF) (e : String × FVal) (i : ℕ) : Bool :=
  match lookupCol df e.1 with
  | some c => if truthy e.2 then cellMatch (c.cells.getD i none) e.2 else true
  | none => true

/-- Whether row `i` passes every active constraint of the spec. -/
def rowPass (df : DF) (fs : List (String × FVal)) (i : ℕ) : Bool :=
  fs.all (fun e => entryPass df e i)

/-- Conjunction of the entry masks, in spec order. -/
def bigMask (df : DF) (fs : List (String × FVal)) : List Bool :=
  fs.foldr (fun e m => List.zipWith andB (entryMask df e) m)
    (List.replicate (nrows df) true)

theorem bigMask_cons (df : DF) (e : String × FVal) (fs : List (String × FVal)) :
    bigMask df (e :: fs) = List.zipWith andB (entryMask df e) (bigMask df fs) := rfl

theorem applyMask_nil_right {α : Type _} (m : List Bool) :
    applyMask m ([] : List α) = [] := by
  cases m with
  | nil => rfl
  | cons b m => cases b <;> rfl

theorem applyMask_nil_left {α : Type _} (l : List α) :
    applyMask [] l = [] := by
  cases l <;> rfl

theorem applyMask_length {α : Type _} :
    ∀ {m : List Bool} {l : List α}, m.length = l.length →
      (applyMask m l).length = m.count true := by
  intro m
  induction m with
  | nil => intro l h; rw [applyMask_nil_left]; rfl
  | cons b m ih =>
    intro l h
    cases l with
    | nil => cases h
    | cons x xs =>
      have h' : m.length = xs.length := by simpa using h
      cases b with
      | true =>
        show (x :: applyMask m xs).length = _
        rw [List.length_cons, ih h', List.count_cons]
        simp
      | false =>
        show (applyMask m xs).length = _
        rw [ih h', List.count_cons]
        simp

theorem applyMask_replicate_true {α : Type _} :
    ∀ {l : List α} {n : ℕ}, l.length = n → applyMask (List.replicate n true) l = l := by
  intro l
  induction l with
  | nil => intro n h; rw [applyMask_nil_right]
  | cons x xs ih =>
    intro n h
    cases n with
    | zero => cases h
    | succ k =>
      show x :: applyMask (List.replicate k true) xs = x :: xs
      rw [ih (by simpa using h)]

theorem map_applyMask {α β : Type _} (f : α → β) :
    ∀ (m : List Bool) (l : List α),
      (applyMask m l).map f = applyMask m (l.map f) := by
  intro m
  induction m with
  | nil => intro l; rw [applyMask_nil_left, applyMask_nil_left]; rfl
  | cons b m ih =>
    intro l
    cases l with
    | nil => rw [applyMask_nil_right, List.map_nil, applyMask_nil_right]
    | cons x xs =>
      cases b with
      | true =>
        show (x :: applyMask m xs).map f = f x :: applyMask m (xs.map f)
        rw [List.map_cons, ih]
      | false =>
        show (applyMask m xs).map f = applyMask m (xs.map f)
        exact ih xs

theorem applyMask_replicate_of_length :
    ∀ (m : List Bool) (n : ℕ), m.length = n →
      applyMask m (List.replicate n (true : Bool)) = List.replicate (m.count true) true := by
  intro m
  induction m with
  | nil => intro n h; cases h; rfl
  | cons b m ih =>
    intro n h
    cases n with
    | zero => cases h
    | succ k =>
      have h' : m.length = k := by simpa using h
      cases b with
      | true =>
        show true :: applyMask m (List.replicate k true) = _
        rw [ih k h', List.count_cons]
        simp [List.replicate]
      | false =>
        show applyMask m (List.replicate k true) = _
        rw [ih k h', List.count_cons]
        simp

theorem zipWith_andB_applyMask :
    ∀ (m : List Bool) (a b : List Bool), a.length = m.length → b.length = m.length →
      List.zipWith andB (applyMask m a) (applyMask m b) =
        applyMask m (List.zipWith andB a b) := by
  intro m
  induction m with
  | nil =>
    intro a b ha hb
    rw [applyMask_nil_left, applyMask_nil_left, applyMask_nil_left]
    rfl
  | cons c m ih =>
    intro a b ha hb
    cases a with
    | nil => cases ha
    | cons x xs =>
      cases b with
      | nil => cases hb
      | cons y ys =>
        have ha' : xs.length = m.length := by simpa using ha
        have hb' : ys.length = m.length := by simpa using hb
        cases c with
        | true =>
          show List.zipWith andB (x :: applyMask m xs) (y :: applyMask m ys) =
            andB x y :: applyMask m (List.zipWith andB xs ys)
          rw [List.zipWith_cons_cons, ih xs ys ha' hb']
        | false =>
          show List.zipWith andB (applyMask m xs) (applyMask m ys) =
            applyMask m (List.zipWith andB xs ys)
          exact ih xs ys ha' hb'

theorem applyMask_applyMask {α : Type _} :
    ∀ (m : List Bool) (k : List Bool) (l : List α),
      k.length = m.length → l.length = m.length →
      applyMask (applyMask m k) (applyMask m l) =
        applyMask (List.zipWith andB m k) l := by
  intro m
  induction m with
  | nil =>
    intro k l hk hl
    simp only [List.zipWith_nil_left, applyMask_nil_left]
  | cons c m ih =>
    intro k l hk hl
    cases k with
    | nil => cases hk
    | cons b ks =>
      cases l with
      | nil => cases hl
      | cons x xs =>
        have hk' : ks.length = m.length := by simpa using hk
        have hl' : xs.length = m.length := by simpa using hl
        cases c with
        | false =>
          show applyMask (applyMask m ks) (applyMask m xs) =
            applyMask (andB false b :: List.zipWith andB m ks) (x :: xs)
          rw [show andB false b = false from rfl]
          show applyMask (applyMask m ks) (applyMask m xs) =
            applyMask (List.zipWith andB m ks) xs
          exact ih ks xs hk' hl'
        | true =>
          cases b with
          | true =>
            show applyMask (true :: applyMask m ks) (x :: applyMask m xs) =
              applyMask (andB true true :: List.zipWith andB m ks) (x :: xs)
            rw [show andB true true = true from rfl]
            show x :: applyMask (applyMask m ks) (applyMask m xs) =
              x :: applyMask (List.zipWith andB m ks) xs
            rw [ih ks xs hk' hl']
          | false =>
            show applyMask (false :: applyMask m ks) (x :: applyMask m xs) =
              applyMask (andB true false :: List.zipWith andB m ks) (x :: xs)
            rw [show andB true false = false from rfl]
            show applyMask (applyMask m ks) (applyMask m xs) =
              applyMask (List.zipWith andB m ks) xs
            exact ih ks xs hk' hl'

theorem mem_applyMask {α : Type _} :
    ∀ {m : List Bool} {l : List α} {x : α}, x ∈ applyMask m l → x ∈ l := by
  intro m
  induction m with
  | nil => intro l x h; rw [applyMask_nil_left] at h; cases h
  | cons b m ih =>
    intro l x h
    cases l with
    | nil => rw [applyMask_nil_right] at h; cases h
    | cons y ys =>
      cases b with
      | true =>
        rcases List.mem_cons.mp h with rfl | h2
        · exact List.mem_cons_self _ _
        · exact List.mem_cons_of_mem _ (ih h2)
      | false => exact List.mem_cons_of_mem _ (ih h)

theorem colNames_maskDF (m : List Bool) (df : DF) :
    colNames (maskDF m df) = colNames df := by
  rw [maskDF]
  show List.map _ _ = _
  rw [List.map_map]
  apply List.map_congr_left
  intro p _
  rfl

theorem lookup_maskDF (m : List Bool) (df : DF) (n : String) :
    lookupCol (maskDF m df) n =
      (lookupCol df n).map (fun c => Col.mk c.kind (applyMask m c.cells)) := by
  induction df with
  | nil => rfl
  | cons p ps ih =>
    simp only [maskDF, List.map_cons, lookupCol]
    by_cases hp : p.1 = n
    · rw [if_pos hp, if_pos hp]
      rfl
    · rw [if_neg hp, if_neg hp]
      exact ih

theorem nrows_maskDF (m : List Bool) (df : DF) (hwf : WF df)
    (hm : m.length = nrows df) : nrows (maskDF m df) = m.count true := by
  cases df with
  | nil =>
    have : m = [] := List.length_eq_zero.mp hm
    rw [this]
    rfl
  | cons p ps =>
    show (applyMask m p.2.cells).length = _
    exact applyMask_length hm

theorem WF_maskDF (m : List Bool) (df : DF) (hwf : WF df)
    (hm : m.length = nrows df) : WF (maskDF m df) := by
  refine ⟨by rw [colNames_maskDF]; exact hwf.1, ?_, ?_⟩
  · intro p hp
    simp only [maskDF, List.mem_map] at hp
    obtain ⟨q, hq, rfl⟩ := hp
    show (applyMask m q.2.cells).length = _
    rw [applyMask_length (by rw [hm, hwf.2.1 q hq]),
      nrows_maskDF m df hwf hm]
  · intro p hp x hx
    simp only [maskDF, List.mem_map] at hp
    obtain ⟨q, hq, rfl⟩ := hp
    exact hwf.2.2 q hq x (mem_applyMask hx)

theorem maskDF_allTrue (df : DF) (hwf : WF df) :
    maskDF (List.replicate (nrows df) true) df = df := by
  rw [maskDF]
  have : ∀ p ∈ df, (p.1, Col.mk p.2.kind
      (applyMask (List.replicate (nrows df) true) p.2.cells)) = p := by
    intro p hp
    rw [applyMask_replicate_true (hwf.2.1 p hp)]
  rw [List.map_congr_left this]
  simp

theorem entryMask_length (df : DF) (e : String × FVal) (hwf : WF df) :
    (entryMask df e).length = nrows df := by
  cases hl : lookupCol df e.1 with
  | none =>
    simp only [entryMask, hl]
    exact List.length_replicate _ _
  | some c =>
    by_cases ht : truthy e.2
    · simp only [entryMask, hl, if_pos ht, List.length_map]
      exact hwf.2.1 (e.1, c) (lookupCol_mem hl)
    · simp only [entryMask, hl, if_neg ht]
      exact List.length_replicate _ _

theorem bigMask_length (df : DF) (fs : List (String × FVal)) (hwf : WF df) :
    (bigMask df fs).length = nrows df := by
  induction fs with
  | nil => exact List.length_replicate _ _
  | cons e fs ih =>
    rw [bigMask_cons, List.length_zipWith, entryMask_length df e hwf, ih,
      Nat.min_self]

theorem applyOne_eq_maskDF (df : DF) (e : String × FVal) (hwf : WF df) :
    applyOne df e = maskDF (entryMask df e) df := by
  cases hl : lookupCol df e.1 with
  | none =>
    simp only [applyOne, entryMask, hl]
    rw [maskDF_allTrue df hwf]
  | some c =>
    by_cases ht : truthy e.2
    · simp only [applyOne, entryMask, hl, if_pos ht]
    · simp only [applyOne, entryMask, hl, if_neg ht]
      rw [maskDF_allTrue df hwf]

theorem entryMask_maskDF (df : DF) (e : String × FVal) (m : List Bool)
    (hwf : WF df) (hm : m.length = nrows df) :
    entryMask (maskDF m df) e = applyMask m (entryMask df e) := by
  cases hl : lookupCol df e.1 with
  | none =>
    simp only [entryMask, lookup_maskDF, hl, Option.map_none']
    rw [nrows_maskDF m df hwf hm,
      ← applyMask_replicate_of_length m (nrows df) hm]
  | some c =>
    by_cases ht : truthy e.2
    · simp only [entryMask, lookup_maskDF, hl, Option.map_some', if_pos ht]
      show (applyMask m c.cells).map _ = _
      rw [map_applyMask]
    · simp only [entryMask, lookup_maskDF, hl, Option.map_some', if_neg ht]
      rw [nrows_maskDF m df hwf hm,
        ← applyMask_replicate_of_length m (nrows df) hm]

theorem bigMask_maskDF (fs : List (String × FVal)) (df : DF) (m : List Bool)
    (hwf : WF df) (hm : m.length = nrows df) :
    bigMask (maskDF m df) fs = applyMask m (bigMask df fs) := by
  induction fs with
  | nil =>
    show List.replicate (nrows (maskDF m df)) true = _
    rw [nrows_maskDF m df hwf hm,
      ← applyMask_replicate_of_length m (nrows df) hm]
    rfl
  | cons e fs ih =>
    rw [bigMask_cons, bigMask_cons, entryMask_maskDF df e m hwf hm, ih,
      zipWith_andB_applyMask m (entryMask df e) (bigMask df fs)
        (by rw [entryMask_length df e hwf, hm])
        (by rw [bigMask_length df fs hwf, hm])]

theorem maskDF_maskDF (df : DF) (m k : List Bool) (hwf : WF df)
    (hm : m.length = nrows df) (hk : k.length = m.length) :
    maskDF (applyMask m k) (maskDF m df) = maskDF (List.zipWith andB m k) df := by
  rw [maskDF, maskDF, List.map_map, maskDF]
  apply List.map_congr_left
  intro p hp
  show (p.1, Col.mk p.2.kind (applyMask (applyMask m k) (applyMask m p.2.cells))) = _
  rw [applyMask_applyMask m k p.2.cells hk (by rw [hwf.2.1 p hp, hm])]

theorem WF_applyOne (df : DF) (e : String × FVal) (hwf : WF df) :
    WF (applyOne df e) := by
  rw [applyOne_eq_maskDF df e hwf]
  exact WF_maskDF _ df hwf (entryMask_length df e hwf)

theorem filter_eq_maskDF (fs : List (String × FVal)) :
    ∀ (df : DF), WF df → filter_data df fs = maskDF (bigMask df fs) df := by
  induction fs with
  | nil =>
    intro df hwf
    show df = maskDF (List.replicate (nrows df) true) df
    rw [maskDF_allTrue df hwf]
  | cons e fs ih =>
    intro df hwf
    show filter_data (applyOne df e) fs = _
    rw [ih (applyOne df e) (WF_applyOne df e hwf),
      applyOne_eq_maskDF df e hwf,
      bigMask_maskDF fs df (entryMask df e) hwf (entryMask_length df e hwf),
      maskDF_maskDF df (entryMask df e) (bigMask df fs) hwf
        (entryMask_length df e hwf)
        (by rw [bigMask_length df fs hwf, entryMask_length df e hwf]),
      bigMask_cons]

theorem entryMask_getElem (df : DF) (e : String × FVal) (hwf : WF df)
    {i : ℕ} (hi : i < nrows df) :
    (entryMask df e)[i]? = some (entryPass df e i) := by
  cases hl : lookupCol df e.1 with
  | none =>
    simp only [entryMask, entryPass, hl]
    exact List.getElem?_replicate_of_lt hi
  | some c =>
    have hlen : i < c.cells.length := by
      rw [hwf.2.1 (e.1, c) (lookupCol_mem hl)]
      exact hi
    by_cases ht : truthy e.2
    · simp only [entryMask, entryPass, hl, if_pos ht, List.getElem?_map,
        List.getElem?_eq_getElem hlen, Option.map_some']
      congr 1
      rw [List.getD_eq_getElem _ _ hlen]
    · simp only [entryMask, entryPass, hl, if_neg ht]
      exact List.getElem?_replicate_of_lt hi

theorem bigMask_getElem (df : DF) (fs : List (String × FVal)) (hwf : WF df)
    {i : ℕ} (hi : i < nrows df) :
    (bigMask df fs)[i]? = some (rowPass df fs i) := by
  induction fs with
  | nil =>
    show (List.replicate (nrows df) true)[i]? = _
    rw [List.getElem?_replicate_of_lt hi]
    rfl
  | cons e fs ih =>
    rw [bigMask_cons, List.getElem?_zipWith, entryMask_getElem df e hwf hi, ih]
    rfl

theorem bigMask_eq_rowPassMask (df : DF) (fs : List (String × FVal)) (hwf : WF df) :
    bigMask df fs = (List.range (nrows df)).map (fun i => rowPass df fs i) := by
  apply List.ext_getElem?
  intro i
  by_cases hi : i < nrows df
  · rw [bigMask_getElem df fs hwf hi, List.getElem?_map, List.getElem?_range hi]
    rfl
  · rw [List.getElem?_eq_none (by rw [bigMask_length df fs hwf]; omega),
      List.getElem?_eq_none (by rw [List.length_map, List.length_range]; omega)]

theorem zipWith_andB_left_comm (a b k : List Bool) :
    List.zipWith andB a (List.zipWith andB b k) =
      List.zipWith andB b (List.zipWith andB a k) := by
  apply List.ext_getElem?
  intro i
  rw [List.getElem?_zipWith, List.getElem?_zipWith, List.getElem?_zipWith,
    List.getElem?_zipWith]
  cases ha : a[i]? <;> cases hb : b[i]? <;> cases hk : k[i]? <;>
    simp [andB, Bool.and_left_comm]

theorem bigMask_perm (df : DF) {fs fs' : List (String × FVal)}
    (hp : fs.Perm fs') : bigMask df fs = bigMask df fs' := by
  induction hp with
  | nil => rfl
  | cons e hp ih => rw [bigMask_cons, bigMask_cons, ih]
  | swap x y l =>
    rw [bigMask_cons, bigMask_cons, bigMask_cons, bigMask_cons,
      zipWith_andB_left_comm]
  | trans hp1 hp2 ih1 ih2 => rw [ih1, ih2]

/-- C8 (claim): filtering returns exactly the rows that satisfy every
active constraint — the frame masked by the per-row conjunction of the
active entries, where an entry whose column is absent or whose value is
falsy imposes no constraint — and the result is invariant under permutation
of the spec's entries. -/
theorem C8_filter_conjunctive (df : DF) (hwf : WF df) (fs : List (String × FVal)) :
    filter_data df fs =
      maskDF ((List.range (nrows df)).map (fun i => rowPass df fs i)) df ∧
    (∀ fs', fs.Perm fs' → filter_data df fs = filter_data df fs') := by
  constructor
  · rw [filter_eq_maskDF fs df hwf, bigMask_eq_rowPassMask df fs hwf]
  · intro fs' hp
    rw [filter_eq_maskDF fs df hwf, filter_eq_maskDF fs' df hwf, bigMask_perm df hp]

/-- Sample frame for the C8 witness. -/
def dfF8 : DF :=
  [("A", Col.mk Kind.knum [some (Val.vnum 1), some (Val.vnum 2)]),
   ("B", Col.mk Kind.ktext [some (Val.vstr ("x")), some (Val.vstr ("y"))])]

/-- Sample filter spec for the C8 witness: a membership filter and an
equality filter. -/
def fsF8 : List (String × FVal) :=
  [("A", FVal.listv [Val.vnum 1, Val.vnum 3]), ("B", FVal.scalar (Val.vstr ("x")))]

/-- Witness for C8 at a concrete frame and spec. -/
theorem C8_filter_conjunctive_witness :
    filter_data dfF8 fsF8 =
      maskDF ((List.range (nrows dfF8)).map (fun i => rowPass dfF8 fsF8 i)) dfF8 :=
  (C8_filter_conjunctive dfF8 (by decide) fsF8).1

/-! ## Time-series extraction (`get_time_series_data`)

`pd.Grouper(key='TIMESTAMP', freq='D')` bins rows by calendar day and drops
rows whose key is `NaT`; grouping additionally drops rows whose group key is
null.  Per group the day strings are ascending; the enumeration order of the
groups themselves (a dict) carries no meaning and is modelled as first
appearance. -/

/-- Numeric content of a cell (`NaN` for anything else). -/
def qCell : Cell → Option ℚ
  | some (Val.vnum q) => some q
  | _ => none

/-- Calendar day of a timestamp cell; `none` for `NaT` or a non-temporal
value (which the day binning drops). -/
def tsCellDay : Cell → Option ℤ
  | some (Val.vtime t) => some (tsDay t)
  | _ => none

/-- Arithmetic mean skipping nothing (`Series.mean` of the non-null values
already extracted); `none` models the `NaN` mean of an empty slice. -/
def meanQ (l : List ℚ) : Option ℚ :=
  if l.isEmpty then none else some (l.sum / (l.length : ℚ))

/-- One `{timestamps, values}` pair of the result. -/
structure TSEntry where
  timestamps : List String
  values : List (Option ℚ)
deriving DecidableEq

/-- Key of the single group when the grouping column is absent. -/
def allStr : String := "all"

/-- Rows usable by the two-key grouping: day of a non-null timestamp,
non-null group key, numeric target content. -/
def validRowsG (ts gs vs : List Cell) : List (ℤ × Val × Option ℚ) :=
  (List.zip ts (List.zip gs vs)).filterMap (fun r =>
    match tsCellDay r.1, r.2.1 with
    | some d, some g => some (d, g, qCell r.2.2)
    | _, _ => none)

/-- Ascending distinct days of one group. -/
def groupDays (rows : List (ℤ × Val × Option ℚ)) (g : Val) : List ℤ :=
  List.mergeSort (((rows.filter (fun r => decide (r.2.1 = g))).map
    (fun r => r.1)).dedup) (fun a b => decide (a ≤ b))

/-- Mean of the target column over one group and day. -/
def meanAt (rows : List (ℤ × Val × Option ℚ)) (g : Val) (d : ℤ) : Option ℚ :=
  meanQ ((rows.filter (fun r => decide (r.2.1 = g) && decide (r.1 = d))).filterMap
    (fun r => r.2.2))

/-- Result of the grouped branch: per distinct group value, aligned day
strings and means. -/
def groupedResult (rows : List (ℤ × Val × Option ℚ)) : List (Val × TSEntry) :=
  ((rows.map (fun r => r.2.1)).dedup).map (fun g =>
    (g, TSEntry.mk ((groupDays rows g).map fmtDay)
      ((groupDays rows g).map (meanAt rows g))))

/-- Rows usable by the day-only grouping. -/
def validRowsA (ts vs : List Cell) : List (ℤ × Option ℚ) :=
  (List.zip ts vs).filterMap (fun r =>
    match tsCellDay r.1 with
    | some d => some (d, qCell r.2)
    | none => none)

/-- Day bins of the single-`Grouper` branch: every day from the earliest to
the latest observed one (resample semantics). -/
def dayRange (rows : List (ℤ × Option ℚ)) : List ℤ :=
  match (rows.map (fun r => r.1)).min?, (rows.map (fun r => r.1)).max? with
  | some lo, some hi => (List.range (hi - lo + 1).toNat).map (fun k => lo + (k : ℤ))
  | _, _ => []

/-- Mean of the target column over one day (no grouping column). -/
def meanAtA (rows : List (ℤ × Option ℚ)) (d : ℤ) : Option ℚ :=
  meanQ ((rows.filter (fun r => decide (r.1 = d))).filterMap (fun r => r.2))

/-- Result of the group-column-absent branch: a single `all` entry. -/
def allResult (rows : List (ℤ × Option ℚ)) : List (Val × TSEntry) :=
  [(Val.vstr allStr, TSEntry.mk ((dayRange rows).map fmtDay)
    ((dayRange rows).map (meanAtA rows)))]

/-- Embedding of `get_time_series_data`: empty result when `TIMESTAMP` or
the target column is absent; `none` models the raise of `pd.Grouper` on a
non-temporal `TIMESTAMP` or of `.mean()` on a non-numeric target; otherwise
group by day and the grouping column (or day only when that column is
absent). -/
def get_time_series_data (df : DF) (column gb : String) : Option (List (Val × TSEntry)) :=
  match lookupCol df sTIMESTAMP, lookupCol df column with
  | some tsc, some vc =>
    if tsc.kind ≠ Kind.ktemporal then none
    else if vc.kind ≠ Kind.knum then none
    else
      match lookupCol df gb with
      | some gc => some (groupedResult (validRowsG tsc.cells gc.cells vc.cells))
      | none => some (allResult (validRowsA tsc.cells vc.cells))
  | _, _ => some []

/-- Frame with the rows whose `TIMESTAMP` is null (or `TIMESTAMP`-typed
junk) removed; identity when there is no `TIMESTAMP` column. -/
def dropNullTs (df : DF) : DF :=
  match lookupCol df sTIMESTAMP with
  | some c => maskDF (c.cells.map (fun x => (tsCellDay x).isSome)) df
  | none => df

theorem zipWith_applyMask {α β γ : Type _} (f : α → β → γ) :
    ∀ (m : List Bool) (a : List α) (b : List β),
      a.length = m.length → b.length = m.length →
      List.zipWith f (applyMask m a) (applyMask m b) =
        applyMask m (List.zipWith f a b) := by
  intro m
  induction m with
  | nil =>
    intro a b _ _
    simp only [applyMask_nil_left, List.zipWith_nil_left]
  | cons c m ih =>
    intro a b ha hb
    cases a with
    | nil => cases ha
    | cons x xs =>
      cases b with
      | nil => cases hb
      | cons y ys =>
        have ha' : xs.length = m.length := by simpa using ha
        have hb' : ys.length = m.length := by simpa using hb
        cases c with
        | true =>
          show List.zipWith f (x :: applyMask m xs) (y :: applyMask m ys) =
            f x y :: applyMask m (List.zipWith f xs ys)
          rw [List.zipWith_cons_cons, ih xs ys ha' hb']
        | false =>
          show List.zipWith f (applyMask m xs) (applyMask m ys) =
            applyMask m (List.zipWith f xs ys)
          exact ih xs ys ha' hb'

theorem applyMask_map_pred {α : Type _} (p : α → Bool) :
    ∀ (l : List α), applyMask (l.map p) l = l.filter p := by
  intro l
  induction l with
  | nil => rfl
  | cons x xs ih =>
    rw [List.map_cons, List.filter_cons]
    cases hp : p x with
    | true =>
      show x :: applyMask (xs.map p) xs = _
      rw [ih, if_pos rfl]
    | false =>
      show applyMask (xs.map p) xs = _
      rw [ih, if_neg Bool.false_ne_true]

theorem filterMap_filter_of_none {α β : Type _} (f : α → Option β) (q : α → Bool)
    (h : ∀ x, q x = false → f x = none) :
    ∀ l : List α, (l.filter q).filterMap f = l.filterMap f := by
  intro l
  induction l with
  | nil => rfl
  | cons x xs ih =>
    rw [List.filter_cons]
    cases hq : q x with
    | true =>
      rw [if_pos rfl, List.filterMap_cons, List.filterMap_cons]
      cases f x <;> rw [ih]
    | false =>
      rw [if_neg Bool.false_ne_true, ih, List.filterMap_cons, h x hq]

theorem validRowsG_mask (ts gs vs : List Cell) (n : ℕ)
    (hts : ts.length = n) (hgs : gs.length = n) (hvs : vs.length = n) :
    validRowsG (applyMask (ts.map (fun x => (tsCellDay x).isSome)) ts)
      (applyMask (ts.map (fun x => (tsCellDay x).isSome)) gs)
      (applyMask (ts.map (fun x => (tsCellDay x).isSome)) vs) =
      validRowsG ts gs vs := by
  have hm : (ts.map (fun x => (tsCellDay x).isSome)).length = n := by
    rw [List.length_map, hts]
  simp only [validRowsG, List.zip_eq_zipWith]
  rw [zipWith_applyMask Prod.mk _ gs vs (by rw [hgs, hm]) (by rw [hvs, hm]),
    zipWith_applyMask Prod.mk _ ts (List.zipWith Prod.mk gs vs)
      (by rw [hts, hm])
      (by rw [List.length_zipWith, hgs, hvs, Nat.min_self, hm])]
  have hfst : (List.zipWith Prod.mk ts (List.zipWith Prod.mk gs vs)).map Prod.fst = ts := by
    rw [← List.zip_eq_zipWith, ← List.zip_eq_zipWith]
    exact List.map_fst_zip ts _ (by rw [List.length_zip, hts, hgs, hvs, Nat.min_self])
  have hmask : ts.map (fun x => (tsCellDay x).isSome) =
      (List.zipWith Prod.mk ts (List.zipWith Prod.mk gs vs)).map
        (fun r => (tsCellDay r.1).isSome) := by
    conv_lhs => rw [← hfst]
    rw [List.map_map]
    rfl
  rw [hmask, applyMask_map_pred]
  apply filterMap_filter_of_none
  intro r hr
  cases h2 : tsCellDay r.1 with
  | none => cases h2b : r.2.1 <;> rfl
  | some d =>
    rw [h2] at hr
    simp at hr

theorem validRowsA_mask (ts vs : List Cell) (n : ℕ)
    (hts : ts.length = n) (hvs : vs.length = n) :
    validRowsA (applyMask (ts.map (fun x => (tsCellDay x).isSome)) ts)
      (applyMask (ts.map (fun x => (tsCellDay x).isSome)) vs) =
      validRowsA ts vs := by
  have hm : (ts.map (fun x => (tsCellDay x).isSome)).length = n := by
    rw [List.length_map, hts]
  simp only [validRowsA, List.zip_eq_zipWith]
  rw [zipWith_applyMask Prod.mk _ ts vs (by rw [hts, hm]) (by rw [hvs, hm])]
  have hfst : (List.zipWith Prod.mk ts vs).map Prod.fst = ts := by
    rw [← List.zip_eq_zipWith]
    exact List.map_fst_zip ts vs (by rw [hts, hvs])
  have hmask : ts.map (fun x => (tsCellDay x).isSome) =
      (List.zipWith Prod.mk ts vs).map (fun r => (tsCellDay r.1).isSome) := by
    conv_lhs => rw [← hfst]
    rw [List.map_map]
    rfl
  rw [hmask, applyMask_map_pred]
  apply filterMap_filter_of_none
  intro r hr
  cases h2 : tsCellDay r.1 with
  | none => rfl
  | some d =>
    rw [h2] at hr
    simp at hr

/-- C10 (claim): time-series extraction silently excludes every row whose
`TIMESTAMP` is null — the output is unchanged when those rows are dropped
beforehand, so they contribute to no day/group mean — and when every
timestamp is null the grouped result is empty. -/
theorem C10_ts_excludes_null_ts (df : DF) (hwf : WF df) (column gb : String)
    (tsc vc : Col) (hts : lookupCol df sTIMESTAMP = some tsc)
    (htk : tsc.kind = Kind.ktemporal) (hc : lookupCol df column = some vc)
    (hck : vc.kind = Kind.knum) :
    get_time_series_data df column gb =
      get_time_series_data (dropNullTs df) column gb ∧
    ((∀ x ∈ tsc.cells, tsCellDay x = none) →
      ∀ gc, lookupCol df gb = some gc →
        get_time_series_data df column gb = some []) := by
  have hlen : tsc.cells.length = nrows df := hwf.2.1 _ (lookupCol_mem hts)
  have hvlen : vc.cells.length = nrows df := hwf.2.1 _ (lookupCol_mem hc)
  have hdrop : dropNullTs df =
      maskDF (tsc.cells.map (fun x => (tsCellDay x).isSome)) df := by
    rw [dropNullTs, hts]
  constructor
  · rw [hdrop]
    cases hg : lookupCol df gb with
    | some gc =>
      have hglen : gc.cells.length = nrows df := hwf.2.1 _ (lookupCol_mem hg)
      simp only [get_time_series_data, hts, hc, hg, lookup_maskDF,
        Option.map_some', htk, hck]
      rw [validRowsG_mask tsc.cells gc.cells vc.cells (nrows df) hlen hglen hvlen]
    | none =>
      simp only [get_time_series_data, hts, hc, hg, lookup_maskDF,
        Option.map_some', Option.map_none', htk, hck]
      rw [validRowsA_mask tsc.cells vc.cells (nrows df) hlen hvlen]
  · intro hall gc hg
    simp only [get_time_series_data, hts, hc, hg, htk, hck]
    have hnil : validRowsG tsc.cells gc.cells vc.cells = [] := by
      rw [validRowsG]
      apply List.filterMap_eq_nil_iff.mpr
      intro r hr
      have hr1 : r.1 ∈ tsc.cells := by
        obtain ⟨r1, r2⟩ := r
        exact (List.of_mem_zip hr).1
      rw [hall r.1 hr1]
    rw [hnil]
    rfl

/-- Sample frame for the C10 witness: one valid and one null timestamp. -/
def dfTS : DF :=
  [(sTIMESTAMP, Col.mk Kind.ktemporal [some (Val.vtime 0), none]),
   ("V", Col.mk Kind.ktext [some (Val.vstr ("a")), some (Val.vstr ("a"))]),
   ("X", Col.mk Kind.knum [some (Val.vnum 10), some (Val.vnum 20)])]

/-- Witness for C10 at a concrete frame: extraction agrees with extraction
after dropping the null-timestamp row. -/
theorem C10_ts_excludes_null_ts_witness :
    get_time_series_data dfTS ("X") ("V") =
      get_time_series_data (dropNullTs dfTS) ("X") ("V") :=
  (C10_ts_excludes_null_ts dfTS (by decide) ("X") ("V")
    (Col.mk Kind.ktemporal [some (Val.vtime 0), none])
    (Col.mk Kind.knum [some (Val.vnum 10), some (Val.vnum 20)])
    (by decide) rfl (by decide) rfl).1

/-! ## Correlation matrix (`get_correlation_data`)

`DataFrame.corr` computes pairwise Pearson coefficients over the pairwise
complete observations.  The coefficient is real-valued (a square root
appears in the denominator); a pair with zero variance on either side
yields `NaN`, modelled `none`.  `df[columns]` raises a `KeyError` when a
requested column is absent, modelled by the `none` result of the whole
function. -/

/-- Pairwise complete observations of two columns: rows where both cells
hold numbers. -/
def completePairs (xs ys : List Cell) : List (ℚ × ℚ) :=
  (List.zip xs ys).filterMap (fun p =>
    match qCell p.1, qCell p.2 with
    | some a, some b => some (a, b)
    | _, _ => none)

/-- Scaled covariance `n·Σxy − Σx·Σy` (numerator of Pearson's r). -/
def covNum (ps : List (ℚ × ℚ)) : ℚ :=
  (ps.length : ℚ) * ((ps.map (fun p => p.1 * p.2)).sum) -
    (ps.map Prod.fst).sum * (ps.map Prod.snd).sum

/-- Scaled variance `n·Σx² − (Σx)²`. -/
def varNum (l : List ℚ) : ℚ :=
  (l.length : ℚ) * ((l.map (fun x => x * x)).sum) - l.sum * l.sum

/-- Pearson correlation coefficient of two columns over their pairwise
complete observations; `none` models the `NaN` produced when either side
has zero variance (division by zero). -/
noncomputable def pearson (xs ys : List Cell) : Option ℝ :=
  let ps := completePairs xs ys
  let vx := varNum (ps.map Prod.fst)
  let vy := varNum (ps.map Prod.snd)
  if vx * vy = 0 then none
  else some ((covNum ps : ℝ) / Real.sqrt ((vx : ℝ) * (vy : ℝ)))

/-- Rounding to two decimal places (`DataFrame.round(2)`); the direction of
the half-way tie-break is immaterial to every claim. -/
noncomputable def round2 (x : ℝ) : ℝ := ((round (x * 100) : ℤ) : ℝ) / 100

/-- The candidate columns of numeric dtype
(`df[columns].select_dtypes(include=['float64','int64'])`), in candidate
order. -/
def numericCandidates (df : DF) (columns : List String) : List String :=
  columns.filter (fun c =>
    match lookupCol df c with
    | some col => decide (col.kind = Kind.knum)
    | none => false)

/-- Cells of a named column (empty for an absent column). -/
def cellsOf (df : DF) (n : String) : List Cell :=
  match lookupCol df n with
  | some c => c.cells
  | none => []

/-- The rounded correlation matrix as a nested mapping over the numeric
candidates. -/
noncomputable def corrMatrix (df : DF) (columns : List String) :
    List (String × List (String × Option ℝ)) :=
  (numericCandidates df columns).map (fun c1 =>
    (c1, (numericCandidates df columns).map (fun c2 =>
      (c2, (pearson (cellsOf df c1) (cellsOf df c2)).map round2))))

/-- Embedding of `get_correlation_data`: `KeyError` (modelled `none`) when a
candidate column is absent; the empty mapping when the numeric restriction
is empty (`numeric_df.empty`, also true with zero rows); else the rounded
matrix as a nested mapping. -/
noncomputable def get_correlation_data (df : DF) (columns : List String) :
    Option (List (String × List (String × Option ℝ))) :=
  if columns.all (fun c => decide (c ∈ colNames df)) then
    if numericCandidates df columns = [] ∨ nrows df = 0 then some []
    else some (corrMatrix df columns)
  else none

/-- Entry of the nested mapping at a pair of column labels. -/
def corrLookup (res : List (String × List (String × Option ℝ))) (c1 c2 : String) :
    Option (Option ℝ) :=
  match res.find? (fun r => decide (r.1 = c1)) with
  | some r => (r.2.find? (fun q => decide (q.1 = c2))).map Prod.snd
  | none => none

theorem find?_map_keys {β : Type _} (ns : List String) (f : String → β) (c : String) :
    ((ns.map (fun n => (n, f n))).find? (fun r => decide (r.1 = c))) =
      if c ∈ ns then some (c, f c) else none := by
  induction ns with
  | nil => rw [List.map_nil, List.find?_nil, if_neg (List.not_mem_nil c)]
  | cons n ns ih =>
    rw [List.map_cons, List.find?_cons]
    by_cases hn : n = c
    · subst hn
      rw [if_pos (List.mem_cons_self n ns)]
      simp
    · have : (decide ((n, f n).1 = c)) = false := by
        simp only [decide_eq_false_iff_not]
        exact hn
      rw [this]
      show (ns.map (fun n => (n, f n))).find? (fun r => decide (r.1 = c)) = _
      rw [ih]
      by_cases hm : c ∈ ns
      · rw [if_pos hm, if_pos (List.mem_cons_of_mem n hm)]
      · rw [if_neg hm, if_neg (fun hc => by
          rcases List.mem_cons.mp hc with h1 | h2
          · exact hn h1.symm
          · exact hm h2)]

theorem corrLookup_map (ns : List String) (g : String → String → Option ℝ)
    (c1 c2 : String) :
    corrLookup (ns.map (fun a => (a, ns.map (fun b => (b, g a b))))) c1 c2 =
      if c1 ∈ ns ∧ c2 ∈ ns then some (g c1 c2) else none := by
  rw [corrLookup]
  rw [show (ns.map (fun a => (a, ns.map (fun b => (b, g a b))))) =
    (ns.map (fun a => (a, (fun x => List.map (fun b => (b, g x b)) ns) a))) from rfl]
  rw [find?_map_keys ns (fun x => List.map (fun b => (b, g x b)) ns) c1]
  by_cases h1 : c1 ∈ ns
  · rw [if_pos h1]
    show ((ns.map (fun b => (b, g c1 b))).find? (fun q => decide (q.1 = c2))).map Prod.snd = _
    rw [find?_map_keys ns (fun b => g c1 b) c2]
    by_cases h2 : c2 ∈ ns
    · rw [if_pos h2, if_pos ⟨h1, h2⟩]
      rfl
    · rw [if_neg h2, if_neg (fun hc => h2 hc.2)]
      rfl
  · rw [if_neg h1, if_neg (fun hc => h1 hc.1)]

theorem sum_sq_diff (x : ℚ) (xs : List ℚ) :
    (xs.map (fun y => (x - y) * (x - y))).sum =
      (xs.length : ℚ) * (x * x) - 2 * x * xs.sum + (xs.map (fun y => y * y)).sum := by
  induction xs with
  | nil => simp
  | cons y ys ih =>
    simp only [List.map_cons, List.sum_cons, List.length_cons]
    push_cast
    rw [ih]
    ring

theorem varNum_nonneg (l : List ℚ) : 0 ≤ varNum l := by
  induction l with
  | nil => simp [varNum]
  | cons x xs ih =>
    have hid : varNum (x :: xs) =
        varNum xs + (xs.map (fun y => (x - y) * (x - y))).sum := by
      simp only [varNum, List.length_cons, List.map_cons, List.sum_cons]
      rw [sum_sq_diff]
      push_cast
      ring
    have hs : 0 ≤ (xs.map (fun y => (x - y) * (x - y))).sum := by
      apply List.sum_nonneg
      intro a ha
      rcases List.mem_map.mp ha with ⟨y, _, rfl⟩
      exact mul_self_nonneg _
    rw [hid]
    linarith [ih, hs]

theorem completePairs_self (xs : List Cell) :
    completePairs xs xs = (xs.filterMap qCell).map (fun q => (q, q)) := by
  induction xs with
  | nil => rfl
  | cons x xs ih =>
    show (List.zip (x :: xs) (x :: xs)).filterMap _ = _
    rw [List.zip_cons_cons, List.filterMap_cons, List.filterMap_cons]
    cases hq : qCell x with
    | none =>
      show ((List.zip xs xs).filterMap _) = _
      rw [← completePairs, ih]
    | some a =>
      show (a, a) :: ((List.zip xs xs).filterMap _) = _
      rw [← completePairs, ih]
      rfl

theorem pearson_self (xs : List Cell) (hv : varNum (xs.filterMap qCell) ≠ 0) :
    pearson xs xs = some 1 := by
  have hps : completePairs xs xs = (xs.filterMap qCell).map (fun q => (q, q)) :=
    completePairs_self xs
  set l := xs.filterMap qCell with hl
  have hfst : (completePairs xs xs).map Prod.fst = l := by
    rw [hps, List.map_map]
    exact List.map_id l
  have hsnd : (completePairs xs xs).map Prod.snd = l := by
    rw [hps, List.map_map]
    exact List.map_id l
  have hcov : covNum (completePairs xs xs) = varNum l := by
    rw [covNum, varNum, hfst, hsnd, hps, List.map_map, List.length_map]
    rfl
  have hpos : 0 < varNum l := lt_of_le_of_ne (varNum_nonneg l) (Ne.symm hv)
  rw [pearson]
  simp only [hfst, hsnd, hcov]
  rw [if_neg (by
    intro hz
    exact hv (by
      rcases mul_eq_zero.mp hz with h | h <;> exact h))]
  congr 1
  have hcast : (0 : ℝ) ≤ (varNum l : ℝ) := by
    exact_mod_cast le_of_lt hpos
  rw [Real.sqrt_mul_self hcast]
  rw [div_self (by exact_mod_cast hv)]

theorem round2_one : round2 1 = 1 := by
  have h1 : (1 : ℝ) * 100 = ((100 : ℤ) : ℝ) := by norm_num
  rw [round2, h1, round_intCast]
  norm_num

theorem completePairs_swap (xs ys : List Cell) :
    completePairs ys xs = (completePairs xs ys).map Prod.swap := by
  rw [completePairs, completePairs, ← List.zip_swap xs ys, List.filterMap_map,
    List.map_filterMap]
  congr 1
  funext p
  obtain ⟨a, b⟩ := p
  show (match qCell b, qCell a with
    | some u, some v => some (u, v)
    | _, _ => none) =
    (match qCell a, qCell b with
    | some u, some v => some ((u, v) : ℚ × ℚ)
    | _, _ => none).map Prod.swap
  cases h1 : qCell a <;> cases h2 : qCell b <;> rfl

theorem pearson_comm (xs ys : List Cell) : pearson ys xs = pearson xs ys := by
  have hps : completePairs ys xs = (completePairs xs ys).map Prod.swap :=
    completePairs_swap xs ys
  have hfst : (completePairs ys xs).map Prod.fst = (completePairs xs ys).map Prod.snd := by
    rw [hps, List.map_map]
    rfl
  have hsnd : (completePairs ys xs).map Prod.snd = (completePairs xs ys).map Prod.fst := by
    rw [hps, List.map_map]
    rfl
  have hcov : covNum (completePairs ys xs) = covNum (completePairs xs ys) := by
    rw [covNum, covNum, hfst, hsnd, hps, List.length_map, List.map_map]
    have h2 : (completePairs xs ys).map ((fun p => p.1 * p.2) ∘ Prod.swap) =
        (completePairs xs ys).map (fun p => p.1 * p.2) :=
      List.map_congr_left (fun p _ => mul_comm _ _)
    rw [h2]
    ring
  simp only [pearson, hfst, hsnd, hcov]
  rw [mul_comm (varNum ((completePairs xs ys).map Prod.snd))
      (varNum ((completePairs xs ys).map Prod.fst)),
    mul_comm ((varNum ((completePairs xs ys).map Prod.snd) : ℚ) : ℝ)
      ((varNum ((completePairs xs ys).map Prod.fst) : ℚ) : ℝ)]

theorem corrLookup_corrMatrix (df : DF) (columns : List String) (c1 c2 : String) :
    corrLookup (corrMatrix df columns) c1 c2 =
      if c1 ∈ numericCandidates df columns ∧ c2 ∈ numericCandidates df columns
      then some ((pearson (cellsOf df c1) (cellsOf df c2)).map round2)
      else none :=
  corrLookup_map (numericCandidates df columns)
    (fun a b => (pearson (cellsOf df a) (cellsOf df b)).map round2) c1 c2

/-- Sample frame for the C9 counterexample. -/
def dfC9 : DF := [("P", Col.mk Kind.knum [some (Val.vnum 1), some (Val.vnum 2)])]

/-- C9 (counterexample): with a candidate column absent from the dataset,
`get_correlation_data` raises a `KeyError` (modelled `none`) instead of
producing any mapping, refuting the claim's quantification over every
candidate column list. -/
theorem C9_correlation_counterexample :
    get_correlation_data dfC9 [("P"), ("QQ")] = none := by
  rw [get_correlation_data, if_neg (by decide)]

/-- C9 (amended): for candidate lists whose columns are all present (and
distinct), correlation returns a nested mapping over the retained numeric
candidates that is symmetric, has entry `1.0` on the diagonal for every
retained column of nonzero variance, and is empty when no numeric columns
remain among the candidates. -/
theorem C9_correlation_matrix (df : DF) (columns : List String) (hwf : WF df)
    (hall : ∀ c ∈ columns, c ∈ colNames df) (hnd : columns.Nodup) :
    ∃ res, get_correlation_data df columns = some res ∧
      (∀ c1 c2, corrLookup res c1 c2 = corrLookup res c2 c1) ∧
      (∀ c ∈ numericCandidates df columns,
        varNum ((cellsOf df c).filterMap qCell) ≠ 0 →
          corrLookup res c c = some (some 1)) ∧
      (numericCandidates df columns = [] → res = []) := by
  have hallb : columns.all (fun c => decide (c ∈ colNames df)) = true :=
    List.all_eq_true.mpr (fun c hc => decide_eq_true (hall c hc))
  by_cases hemp : numericCandidates df columns = [] ∨ nrows df = 0
  · refine ⟨[], ?_, fun c1 c2 => rfl, ?_, fun _ => rfl⟩
    · rw [get_correlation_data, if_pos hallb, if_pos hemp]
    · intro c hc hv
      exfalso
      rcases hemp with h | h
      · rw [h] at hc
        cases hc
      · apply hv
        have hpred := List.of_mem_filter hc
        cases hl : lookupCol df c with
        | none => rw [numericCandidates] at hc; rw [hl] at hpred; cases hpred
        | some col =>
          have hcells : col.cells = [] := by
            apply List.length_eq_zero.mp
            rw [hwf.2.1 (c, col) (lookupCol_mem hl), h]
          have : cellsOf df c = [] := by
            simp only [cellsOf, hl, hcells]
          rw [this]
          norm_num [varNum]
  · have hemp' := hemp
    push_neg at hemp'
    refine ⟨corrMatrix df columns, ?_, ?_, ?_, ?_⟩
    · rw [get_correlation_data, if_pos hallb, if_neg hemp]
    · intro c1 c2
      rw [corrLookup_corrMatrix, corrLookup_corrMatrix]
      by_cases h12 : c1 ∈ numericCandidates df columns ∧ c2 ∈ numericCandidates df columns
      · rw [if_pos h12, if_pos ⟨h12.2, h12.1⟩,
          pearson_comm (cellsOf df c1) (cellsOf df c2)]
      · rw [if_neg h12, if_neg (fun hc => h12 ⟨hc.2, hc.1⟩)]
    · intro c hc hv
      rw [corrLookup_corrMatrix, if_pos ⟨hc, hc⟩, pearson_self (cellsOf df c) hv,
        Option.map_some', round2_one]
    · intro h
      exact absurd h hemp'.1

/-- Sample frame for the C9 witness: a numeric column with nonzero
variance. -/
def dfC9w : DF := [("P", Col.mk Kind.knum [some (Val.vnum 0), some (Val.vnum 2)])]

/-- Witness for C9 at a concrete frame: the diagonal entry of the numeric
column `P` is `1.0`. -/
theorem C9_correlation_matrix_witness :
    (get_correlation_data dfC9w [("P")]).map (fun res => corrLookup res ("P") ("P")) =
      some (some (some 1)) := by
  obtain ⟨res, h1, hsym, hdiag, hemp⟩ :=
    C9_correlation_matrix dfC9w [("P")] (by decide) (by decide) (by decide)
  rw [h1]
  exact congrArg some (hdiag ("P") (by decide) (by
    rw [show (cellsOf dfC9w ("P")).filterMap qCell = [(0 : ℚ), 2] from rfl]
    norm_num [varNum, List.sum_cons, List.map_cons]))

/-! ## Summary statistics (`get_summary_stats`) and Query Layer totality -/

/-- Name of the derived `VESSEL_NAME` column. -/
def sVESSEL_NAME : String := "VESSEL_NAME"

/-- Name of the `COMP_NAME` column. -/
def sCOMP_NAME : String := "COMP_NAME"

/-- Name of the `MP_NAME` column. -/
def sMP_NAME : String := "MP_NAME"

/-- Name of the excluded `COMP_NUMBER` column. -/
def sCOMP_NUMBER : String := "COMP_NUMBER"

/-- `value_counts().to_dict()`: occurrence count per distinct non-null
value (dict ordering carries no meaning; modelled as first appearance). -/
def valueCounts (c : Col) : List (Val × ℕ) :=
  ((c.cells.filterMap id).dedup).map (fun v => (v, (c.cells.filterMap id).count v))

/-- Numeric non-null values of a column. -/
def ratsOfCol (c : Col) : List ℚ := c.cells.filterMap qCell

/-- Median of a numeric column's non-null values (`NaN`, i.e. `none`, when
empty): middle element of the sorted values, or the mean of the two middle
ones. -/
def medianOpt (l : List ℚ) : Option ℚ :=
  if l.isEmpty then none
  else
    (if l.length % 2 = 1 then
      some ((List.mergeSort l (fun a b => decide (a ≤ b))).getD (l.length / 2) 0)
    else
      some (((List.mergeSort l (fun a b => decide (a ≤ b))).getD (l.length / 2 - 1) 0 +
        (List.mergeSort l (fun a b => decide (a ≤ b))).getD (l.length / 2) 0) / 2))

/-- The four per-column aggregates of `numeric_stats`, each defaulting to
`0` when undefined on an empty column. -/
structure NumColStats where
  statMin : ℚ
  statMax : ℚ
  statMean : ℚ
  statMedian : ℚ
deriving DecidableEq

/-- Aggregates of one numeric column (`float(...) if not isna else 0`). -/
def mkNumStats (l : List ℚ) : NumColStats :=
  NumColStats.mk (l.min?.getD 0) (l.max?.getD 0) ((meanQ l).getD 0)
    ((medianOpt l).getD 0)

/-- Per-column numeric aggregates over the numeric columns other than
`COMP_NUMBER`. -/
def numericStatsOf (df : DF) : List (String × NumColStats) :=
  (df.filter (fun p => decide (p.2.kind = Kind.knum) && decide (p.1 ≠ sCOMP_NUMBER))).map
    (fun p => (p.1, mkNumStats (ratsOfCol p.2)))

/-- Non-null time points of a temporal column. -/
def tsVals (c : Col) : List ℤ :=
  c.cells.filterMap (fun x =>
    match x with
    | some (Val.vtime t) => some t
    | _ => none)

/-- Abstract ISO-8601 rendering of a time point (`Timestamp.isoformat`). -/
def fmtTs (t : ℤ) : String := timeMark ++ toString t

/-- The `date_range` part of the summary: absent (`none` outer) when there
is no `TIMESTAMP` column; a fault (modelled by the whole summary returning
`none`) when `TIMESTAMP` exists but is not temporal, since `.isoformat()`
is called on its min/max; else the ISO strings of min and max, each `null`
when no valid timestamp exists. -/
def dateRangeOf (df : DF) : Option (Option (Option String × Option String)) :=
  match lookupCol df sTIMESTAMP with
  | none => some none
  | some c =>
    if c.kind = Kind.ktemporal then
      some (some ((tsVals c).min?.map fmtTs, (tsVals c).max?.map fmtTs))
    else none

/-- The summary-statistics record: each counts entry present only when its
column exists. -/
structure SummaryStats where
  vessel_counts : Option (List (Val × ℕ))
  component_counts : Option (List (Val × ℕ))
  mp_name_counts : Option (List (Val × ℕ))
  date_range : Option (Option String × Option String)
  numeric_stats : List (String × NumColStats)

/-- Embedding of `get_summary_stats`: `none` models the only fault path
(`isoformat` on a non-temporal `TIMESTAMP`). -/
def get_summary_stats (df : DF) : Option SummaryStats :=
  (dateRangeOf df).map (fun dr =>
    SummaryStats.mk
      ((lookupCol df sVESSEL_NAME).map valueCounts)
      ((lookupCol df sCOMP_NAME).map valueCounts)
      ((lookupCol df sMP_NAME).map valueCounts)
      dr
      (numericStatsOf df))

/-- Guard for the summary/time-series fault paths: a `TIMESTAMP` column, if
present, is of temporal dtype. -/
def tsGuardOk (df : DF) : Bool :=
  match lookupCol df sTIMESTAMP with
  | some c => decide (c.kind = Kind.ktemporal)
  | none => true

/-- C1 (amended): over a well-formed dataset whose `TIMESTAMP` column (when
present) is temporal, the Query Layer functions are total: summary
statistics returns a value; filtering returns a frame with the same
columns for every spec; categorization returns the five buckets;
time-series extraction returns a value whenever the target column, when
present, is numeric; correlation returns a value whenever every candidate
column is present, and the empty mapping when additionally no numeric
candidates remain.  (With an absent candidate, correlation raises — see the
counterexample.) -/
theorem C1_query_layer_total (df : DF) (hwf : WF df)
    (hts : tsGuardOk df = true) :
    (get_summary_stats df).isSome = true ∧
    (∀ fs : List (String × FVal), colNames (filter_data df fs) = colNames df) ∧
    ((get_column_categories df).map Prod.fst =
      [catMetadata, catVibration, catBearing, catShaft, catOther]) ∧
    (∀ column gb : String,
      (∀ c, lookupCol df column = some c → c.kind = Kind.knum) →
        (get_time_series_data df column gb).isSome = true) ∧
    (∀ cols : List String, (∀ c ∈ cols, c ∈ colNames df) →
      (get_correlation_data df cols).isSome = true) ∧
    (∀ cols : List String, (∀ c ∈ cols, c ∈ colNames df) →
      numericCandidates df cols = [] → get_correlation_data df cols = some []) := by
  refine ⟨?_, ?_, rfl, ?_, ?_, ?_⟩
  · rw [get_summary_stats]
    cases h1 : lookupCol df sTIMESTAMP with
    | none => simp [dateRangeOf, h1]
    | some c =>
      have hk : c.kind = Kind.ktemporal := by
        rw [tsGuardOk, h1] at hts
        exact of_decide_eq_true hts
      simp [dateRangeOf, h1, hk]
  · intro fs
    rw [filter_eq_maskDF fs df hwf, colNames_maskDF]
  · intro column gb hcol
    cases h1 : lookupCol df sTIMESTAMP with
    | none => simp [get_time_series_data, h1]
    | some tsc =>
      cases h2 : lookupCol df column with
      | none => simp [get_time_series_data, h1, h2]
      | some vc =>
        have hk1 : tsc.kind = Kind.ktemporal := by
          rw [tsGuardOk, h1] at hts
          exact of_decide_eq_true hts
        have hk2 : vc.kind = Kind.knum := hcol vc h2
        cases h3 : lookupCol df gb <;>
          simp [get_time_series_data, h1, h2, h3, hk1, hk2]
  · intro cols hall
    have hallb : cols.all (fun c => decide (c ∈ colNames df)) = true :=
      List.all_eq_true.mpr (fun c hc => decide_eq_true (hall c hc))
    rw [get_correlation_data, if_pos hallb]
    by_cases hemp : numericCandidates df cols = [] ∨ nrows df = 0
    · rw [if_pos hemp]
      rfl
    · rw [if_neg hemp]
      rfl
  · intro cols hall hnum
    have hallb : cols.all (fun c => decide (c ∈ colNames df)) = true :=
      List.all_eq_true.mpr (fun c hc => decide_eq_true (hall c hc))
    rw [get_correlation_data, if_pos hallb, if_pos (Or.inl hnum)]

/-- Sample frame for the C1 counterexample. -/
def dfC1 : DF := [("A", Col.mk Kind.knum [some (Val.vnum 1)])]

/-- C1 (counterexample): the correlation function does not degrade
gracefully when a candidate column is absent — `df[columns]` raises a
`KeyError` (modelled `none`) instead of returning an empty result. -/
theorem C1_query_layer_counterexample :
    get_correlation_data dfC1 [("B")] = none := by
  rw [get_correlation_data, if_neg (by decide)]

/-- Witness for C1 at a concrete frame. -/
theorem C1_query_layer_total_witness :
    (get_column_categories dfTS).map Prod.fst =
      [catMetadata, catVibration, catBearing, catShaft, catOther] :=
  (C1_query_layer_total dfTS (by decide) (by decide)).2.2.1

end VesselDash
